import Mathlib

/-!
The expression-graph core of STP (`lib/AST/ASTmisc.cpp`).

A shallow embedding of the helper functions of `ASTmisc.cpp` and theorems about them.

* An `ASTNode` is a finite tree value.  The hash-consing manager guarantees that structural
  equality and node identity coincide, so the C++ handle comparison `n1 == n2` is equality of
  values.
* `FatalError` prints a diagnostic and calls `abort()`; it is an exception of the `Except` monad.
* `n[i]` with `i >= n.Degree()` is undefined behaviour in C++; it is a second kind of failure,
  kept apart from fatal errors.
* Widths and constants are C `unsigned int`; sums and differences of them wrap modulo `2^32`.
-/

namespace stp

/-! ## Data model -/

/-- Modelled from the spec: the closed enumeration of operator kinds (§3); the header that
declares `Kind` is not among the sources.  `SYMBOL` and `ITE` are single enumerators that occur
in both dispatch tables of the type checker. -/
inductive Kind where
  | UNDEFINED
  | SYMBOL | BVCONST | ITE | READ | WRITE
  | BVDIV | BVMOD | BVSUB | SBVDIV | SBVREM | SBVMOD
  | BVLEFTSHIFT | BVRIGHTSHIFT | BVSRSHIFT
  | BVOR | BVAND | BVXOR | BVNOR | BVNAND | BVXNOR | BVPLUS | BVMULT
  | BVSX | BVZX | BVCONCAT | BVUMINUS | BVNOT | BVEXTRACT
  | TRUE | FALSE | BOOLEXTRACT | PARAMBOOL | EQ
  | BVLT | BVLE | BVGT | BVGE | BVSLT | BVSLE | BVSGT | BVSGE
  | NOT | AND | OR | XOR | NAND | NOR | IFF | IMPLIES
  deriving DecidableEq, Repr

/-- Modelled from the spec: the type kinds of §3 (`enum types` of the missing header). -/
inductive types where
  | BOOLEAN_TYPE | BITVECTOR_TYPE | ARRAY_TYPE | UNKNOWN_TYPE
  deriving DecidableEq, Repr

/-- Modelled from the spec: the node record of §3 / the node handle of §4.2.  The fields are
what the accessors `GetKind`, `GetType`, `GetValueWidth`, `GetIndexWidth`, `GetNodeNum`,
`GetUnsignedConst` and `GetChildren` return. -/
inductive ASTNode where
  | mk (kind : Kind) (type : types) (valueWidth indexWidth nodeNum unsignedConst : Nat)
      (children : List ASTNode)

namespace ASTNode

def GetKind : ASTNode → Kind
  | mk k _ _ _ _ _ _ => k

def GetType : ASTNode → types
  | mk _ t _ _ _ _ _ => t

def GetValueWidth : ASTNode → Nat
  | mk _ _ w _ _ _ _ => w

def GetIndexWidth : ASTNode → Nat
  | mk _ _ _ i _ _ _ => i

def GetNodeNum : ASTNode → Nat
  | mk _ _ _ _ m _ _ => m

def GetUnsignedConst : ASTNode → Nat
  | mk _ _ _ _ _ u _ => u

def GetChildren : ASTNode → List ASTNode
  | mk _ _ _ _ _ _ cs => cs

/-- The number of children, `n.Degree()`. -/
def Degree (n : ASTNode) : Nat := n.GetChildren.length

/-- Modelled from the spec: `is_atom()` of §4.2, a node with zero children. -/
def isAtom (n : ASTNode) : Bool := n.GetChildren.isEmpty

/-- The node with its declared value width replaced. -/
def withValueWidth : ASTNode → Nat → ASTNode
  | mk k t _ i m u cs, w => mk k t w i m u cs

end ASTNode

/-- Ways in which a call does not return. -/
inductive Failure where
  /-- A call of `FatalError(...)`: a diagnostic on the error channel, then `abort()`. -/
  | fatal (msg : String)
  /-- The access `n[i]` evaluated with `i >= n.Degree()`: undefined behaviour. -/
  | outOfRange (i : Nat)
  deriving DecidableEq, Repr

/-- The function `FatalError(str, ...)`: it never returns. -/
def FatalError {α : Type} (str : String) : Except Failure α :=
  Except.error (Failure.fatal str)

/-- The child access `n[i]`. -/
def ASTNode.child (n : ASTNode) (i : Nat) : Except Failure ASTNode :=
  match n.GetChildren.get? i with
  | some c => Except.ok c
  | none => Except.error (Failure.outOfRange i)

/-- Addition of two `unsigned int` values. -/
def uadd32 (a b : Nat) : Nat := (a + b) % 4294967296

/-- Subtraction of two `unsigned int` values. -/
def usub32 (a b : Nat) : Nat := (a % 4294967296 + (4294967296 - b % 4294967296)) % 4294967296

/-- Modelled from the spec: `is_Term_kind`, the term kinds listed in §3 (its table is generated
into a header that is not among the sources). -/
def is_Term_kind : Kind → Bool
  | .BVCONST | .SYMBOL | .ITE | .READ | .WRITE
  | .BVDIV | .BVMOD | .BVSUB | .SBVDIV | .SBVREM | .SBVMOD
  | .BVLEFTSHIFT | .BVRIGHTSHIFT | .BVSRSHIFT
  | .BVOR | .BVAND | .BVXOR | .BVNOR | .BVNAND | .BVXNOR | .BVPLUS | .BVMULT
  | .BVSX | .BVZX | .BVCONCAT | .BVUMINUS | .BVNOT | .BVEXTRACT => true
  | _ => false

/-- Modelled from the spec: `is_Form_kind`, the formula kinds listed in §3. -/
def is_Form_kind : Kind → Bool
  | .TRUE | .FALSE | .SYMBOL | .BOOLEXTRACT | .PARAMBOOL | .EQ
  | .BVLT | .BVLE | .BVGT | .BVGE | .BVSLT | .BVSLE | .BVSGT | .BVSGE
  | .NOT | .AND | .OR | .XOR | .NAND | .NOR | .IFF | .IMPLIES | .ITE => true
  | _ => false

/-! ## The type checker -/

/-- The function `checkChildrenAreBV(v, n)`: the first child that is not a bit-vector is fatal. -/
def checkChildrenAreBV : List ASTNode → Except Failure Unit
  | [] => pure ()
  | c :: cs =>
    if c.GetType ≠ types.BITVECTOR_TYPE then
      FatalError "BVTypeCheck:ChildNodes of bitvector-terms must be bitvectors\n"
    else checkChildrenAreBV cs

/-- The loop of the `BVOR ... BVMULT` case: every operand has the width of the term and is a
bit-vector; the width is tested first. -/
def checkOperands (width : Nat) : List ASTNode → Except Failure Unit
  | [] => pure ()
  | c :: cs =>
    if width ≠ c.GetValueWidth then
      FatalError "BVTypeCheck:Offending operand:\n"
    else if c.GetType ≠ types.BITVECTOR_TYPE then
      FatalError "BVTypeCheck: ChildNodes of bitvector-terms must be bitvectors\n"
    else checkOperands width cs

/-- The block shared by the bitwise and arithmetic operators (`case BVOR: ... case BVMULT:`),
also reached by falling through from the binary operators. -/
def checkBitwiseArith (n : ASTNode) : Except Failure Bool := do
  if ¬ (n.GetChildren.length ≥ 2) then
    FatalError "BVTypeCheck:bitwise Booleans and BV arith operators must have at least two arguments\n"
  checkOperands n.GetValueWidth n.GetChildren
  return true

def BVTypeCheck_term_kind (n : ASTNode) (k : Kind) : Except Failure Bool :=
  match k with
  | .BVCONST => do
    if types.BITVECTOR_TYPE ≠ n.GetType then
      FatalError "BVTypeCheck: The term t does not typecheck, where t = \n"
    return true
  | .SYMBOL => return true
  | .ITE => do
    if n.Degree ≠ 3 then
      FatalError "BVTypeCheck: should have exactly 3 args\n"
    let c0 ← n.child 0
    let c1 ← n.child 1
    let c2 ← n.child 2
    if types.BOOLEAN_TYPE ≠ c0.GetType ∨ c1.GetType ≠ c2.GetType then
      FatalError "BVTypeCheck: The term t does not typecheck, where t = \n"
    if c1.GetValueWidth ≠ c2.GetValueWidth then
      FatalError "BVTypeCheck: length of THENbranch != length of ELSEbranch in the term t = \n"
    if c1.GetIndexWidth ≠ c2.GetIndexWidth then
      FatalError "BVTypeCheck: length of THENbranch != length of ELSEbranch in the term t = \n"
    return true
  | .READ => do
    if n.GetChildren.length ≠ 2 then
      FatalError "2 params to read."
    let c0 ← n.child 0
    let c1 ← n.child 1
    if c0.GetIndexWidth ≠ c1.GetValueWidth then
      FatalError "BVTypeCheck: length of indexwidth of array != length of actual index in the term t = \n"
    if types.ARRAY_TYPE ≠ c0.GetType then
      FatalError "First parameter to read should be an array"
    if types.BITVECTOR_TYPE ≠ c1.GetType then
      FatalError "Second parameter to read should be a bitvector"
    return true
  | .WRITE => do
    if n.GetChildren.length ≠ 3 then
      FatalError "3 params to write."
    let c0 ← n.child 0
    let c1 ← n.child 1
    if c0.GetIndexWidth ≠ c1.GetValueWidth then
      FatalError "BVTypeCheck: length of indexwidth of array != length of actual index in the term t = \n"
    let c2 ← n.child 2
    if c0.GetValueWidth ≠ c2.GetValueWidth then
      FatalError "BVTypeCheck: valuewidth of array != length of actual value in the term t = \n"
    if types.ARRAY_TYPE ≠ c0.GetType then
      FatalError "First parameter to read should be an array"
    if types.BITVECTOR_TYPE ≠ c1.GetType then
      FatalError "Second parameter to read should be a bitvector"
    if types.BITVECTOR_TYPE ≠ c2.GetType then
      FatalError "Third parameter to read should be a bitvector"
    return true
  | .BVDIV | .BVMOD | .BVSUB | .SBVDIV | .SBVREM | .SBVMOD
  | .BVLEFTSHIFT | .BVRIGHTSHIFT | .BVSRSHIFT => do
    if n.Degree ≠ 2 then
      FatalError "BVTypeCheck: should have exactly 2 args\n"
    -- run on.
    checkBitwiseArith n
  | .BVOR | .BVAND | .BVXOR | .BVNOR | .BVNAND | .BVXNOR | .BVPLUS | .BVMULT =>
    checkBitwiseArith n
  | .BVSX | .BVZX => do
    let c0 ← n.child 0
    if c0.GetValueWidth > n.GetValueWidth then
      FatalError "BVTypeCheck: BV[SZ]X(t,bv[sz]x_len) : length of 't' must be <= bv[sz]x_len\n"
    if n.GetChildren.length ≠ 2 then
      FatalError "BVTypeCheck:BV[SZ]X must have two arguments. The second is the new width\n"
    return true
  | .BVCONCAT => do
    checkChildrenAreBV n.GetChildren
    if n.Degree ≠ 2 then
      FatalError "BVTypeCheck: should have exactly 2 args\n"
    let c0 ← n.child 0
    let c1 ← n.child 1
    if n.GetValueWidth ≠ uadd32 c0.GetValueWidth c1.GetValueWidth then
      FatalError "BVTypeCheck:BVCONCAT: lengths do not add up\n"
    return true
  | .BVUMINUS | .BVNOT => do
    checkChildrenAreBV n.GetChildren
    if n.Degree ≠ 1 then
      FatalError "BVTypeCheck: should have exactly 1 args\n"
    let c0 ← n.child 0
    if n.GetValueWidth ≠ c0.GetValueWidth then
      FatalError "BVTypeCheck: should have same value width\n"
    return true
  | .BVEXTRACT => do
    checkChildrenAreBV n.GetChildren
    if n.Degree ≠ 3 then
      FatalError "BVTypeCheck: should have exactly 3 args\n"
    let c1 ← n.child 1
    let c2 ← n.child 2
    if ¬ (Kind.BVCONST = c1.GetKind ∧ Kind.BVCONST = c2.GetKind) then
      FatalError "BVTypeCheck: indices should be BVCONST\n"
    if n.GetValueWidth ≠ uadd32 (usub32 c1.GetUnsignedConst c2.GetUnsignedConst) 1 then
      FatalError "BVTypeCheck: length mismatch\n"
    let c0 ← n.child 0
    if c1.GetUnsignedConst ≥ c0.GetValueWidth then
      FatalError "BVTypeCheck: Top index of select is greater or equal to the bitwidth.\n"
    return true
  | _ =>
    FatalError "No type checking for type"

def BVTypeCheck_nonterm_kind (n : ASTNode) (k : Kind) : Except Failure Bool := do
  if ¬ (is_Form_kind k = true ∧ types.BOOLEAN_TYPE = n.GetType) then
    FatalError "BVTypeCheck: not a formula:"
  match k with
  | .TRUE | .FALSE | .SYMBOL => return true
  | .BOOLEXTRACT => do
    checkChildrenAreBV n.GetChildren
    if n.Degree ≠ 2 then
      FatalError "BVTypeCheck: should have exactly 2 args\n"
    let c1 ← n.child 1
    if ¬ (Kind.BVCONST = c1.GetKind) then
      FatalError "BVTypeCheck: index should be BVCONST\n"
    let c0 ← n.child 0
    if c1.GetUnsignedConst ≥ c0.GetValueWidth then
      FatalError "BVTypeCheck: index is greater or equal to the bitwidth.\n"
    return true
  | .PARAMBOOL => do
    if 2 ≠ n.Degree then
      FatalError "BVTypeCheck: PARAMBOOL formula can have exactly two childNodes"
    return true
  | .EQ => do
    if n.Degree ≠ 2 then
      FatalError "BVTypeCheck: should have exactly 2 args\n"
    let c0 ← n.child 0
    let c1 ← n.child 1
    if ¬ (c0.GetValueWidth = c1.GetValueWidth ∧ c0.GetIndexWidth = c1.GetIndexWidth) then
      FatalError "BVTypeCheck: terms in atomic formulas must be of equal length"
    return true
  | .BVLT | .BVLE | .BVGT | .BVGE | .BVSLT | .BVSLE | .BVSGT | .BVSGE => do
    if n.Degree ≠ 2 then
      FatalError "BVTypeCheck: should have exactly 2 args\n"
    let c0 ← n.child 0
    let c1 ← n.child 1
    if types.BITVECTOR_TYPE ≠ c0.GetType ∧ types.BITVECTOR_TYPE ≠ c1.GetType then
      FatalError "BVTypeCheck: terms in atomic formulas must be bitvectors"
    if c0.GetValueWidth ≠ c1.GetValueWidth then
      FatalError "BVTypeCheck: terms in atomic formulas must be of equal length"
    if c0.GetIndexWidth ≠ c1.GetIndexWidth then
      FatalError "BVTypeCheck: terms in atomic formulas must be of equal length"
    return true
  | .NOT => do
    if 1 ≠ n.Degree then
      FatalError "BVTypeCheck: NOT formula can have exactly one childNode"
    return true
  | .AND | .OR | .XOR | .NAND | .NOR => do
    if 2 > n.Degree then
      FatalError "BVTypeCheck: AND/OR/XOR/NAND/NOR: must have atleast 2 ChildNodes"
    return true
  | .IFF | .IMPLIES => do
    if 2 ≠ n.Degree then
      FatalError "BVTypeCheck:IFF/IMPLIES must have exactly 2 ChildNodes"
    return true
  | .ITE => do
    if 3 ≠ n.Degree then
      FatalError "BVTypeCheck:ITE must have exactly 3 ChildNodes"
    return true
  | _ =>
    FatalError "BVTypeCheck: Unrecognized kind: "

/-- The type checker for terms and formulas: if it returns, it returns true. -/
def BVTypeCheck (n : ASTNode) : Except Failure Bool :=
  let k := n.GetKind
  if is_Term_kind k = true then
    BVTypeCheck_term_kind n k
  else
    BVTypeCheck_nonterm_kind n k

/-! ## Node identity and reachability -/

mutual
/-- Equality of nodes is decidable (the handle comparison `n1 == n2`). -/
def ASTNode.decEq : (a b : ASTNode) → Decidable (a = b)
  | .mk k1 t1 w1 i1 m1 u1 cs1, .mk k2 t2 w2 i2 m2 u2 cs2 =>
    if h : k1 = k2 ∧ t1 = t2 ∧ w1 = w2 ∧ i1 = i2 ∧ m1 = m2 ∧ u1 = u2 then
      match ASTNode.decEqList cs1 cs2 with
      | isTrue hc => isTrue (by
          obtain ⟨rfl, rfl, rfl, rfl, rfl, rfl⟩ := h
          rw [hc])
      | isFalse hc => isFalse (by
          intro he
          injection he with _ _ _ _ _ _ h7
          exact hc h7)
    else isFalse (by
      intro he
      injection he with h1 h2 h3 h4 h5 h6 _
      exact h ⟨h1, h2, h3, h4, h5, h6⟩)
/-- Equality of lists of nodes is decidable. -/
def ASTNode.decEqList : (as bs : List ASTNode) → Decidable (as = bs)
  | [], [] => isTrue rfl
  | [], _ :: _ => isFalse (by intro h; cases h)
  | _ :: _, [] => isFalse (by intro h; cases h)
  | a :: as, b :: bs =>
    match ASTNode.decEq a b with
    | isTrue h1 =>
      match ASTNode.decEqList as bs with
      | isTrue h2 => isTrue (by rw [h1, h2])
      | isFalse h2 => isFalse (by
          intro he
          injection he with _ h4
          exact h2 h4)
    | isFalse h1 => isFalse (by
        intro he
        injection he with h3 _
        exact h1 h3)
end

instance : DecidableEq ASTNode := ASTNode.decEq

mutual
/-- The nodes reachable from a node: the node itself and all its descendants, in pre-order
(a shared node occurs once per path that leads to it). -/
def ASTNode.reach : ASTNode → List ASTNode
  | .mk k t w i m u cs => .mk k t w i m u cs :: ASTNode.reachList cs
/-- The nodes reachable from the nodes of a list. -/
def ASTNode.reachList : List ASTNode → List ASTNode
  | [] => []
  | c :: cs => ASTNode.reach c ++ ASTNode.reachList cs
end

/-! ## The recursive type checker -/

mutual
/-- The function `BVTypeCheckRecursive(n)`: check `n`, then every child in turn. -/
def BVTypeCheckRecursive : ASTNode → Except Failure Bool
  | .mk k t w i m u cs => do
    let _ ← BVTypeCheck (.mk k t w i m u cs)
    BVTypeCheckRecursiveChildren cs
    return true
/-- The loop of `BVTypeCheckRecursive` over the children `c`. -/
def BVTypeCheckRecursiveChildren : List ASTNode → Except Failure Unit
  | [] => pure ()
  | c :: cs => do
    let _ ← BVTypeCheckRecursive c
    BVTypeCheckRecursiveChildren cs
end

mutual
/-- The memoising variant that §4.6 of the specification allows ("implementations MAY memoise
by visited-set"); it is not part of the sources.  A node found in the visited set is skipped,
together with its subgraph; any other node is entered into the set, checked once, and its
children are visited in turn. -/
def typeCheckRecursiveMemo : ASTNode → List ASTNode → Except Failure (List ASTNode)
  | .mk k t w i m u cs, visited =>
    if .mk k t w i m u cs ∈ visited then pure visited
    else do
      let _ ← BVTypeCheck (.mk k t w i m u cs)
      typeCheckRecursiveMemoChildren cs (.mk k t w i m u cs :: visited)
/-- The loop of `typeCheckRecursiveMemo` over the children. -/
def typeCheckRecursiveMemoChildren : List ASTNode → List ASTNode → Except Failure (List ASTNode)
  | [], visited => pure visited
  | c :: cs, visited => do
    let visited1 ← typeCheckRecursiveMemo c visited
    typeCheckRecursiveMemoChildren cs visited1
end

/-! ## Counting reads -/

/-- The state of `numberOfReadsLessThan`: the set `visited` of node numbers and the counter
`soFar`. -/
structure ReadCount where
  visited : List Nat
  soFar : Int
  deriving DecidableEq, Repr

mutual
/-- The recursive `numberOfReadsLessThan(n, visited, soFar, limit)`.  `soFar` is passed by
reference, so the increment is kept when the call returns early.  Node numbers, the counter
and the limit are taken as integers: the counter is bounded by the size of the graph and does
not overflow. -/
def numberOfReadsLessThanAux (limit : Int) : ASTNode → ReadCount → ReadCount
  | .mk k t w i m u cs, st =>
    if (ASTNode.mk k t w i m u cs).isAtom then st
    else if m ∈ st.visited then st
    else
      let soFar := if k = Kind.READ then st.soFar + 1 else st.soFar
      if soFar > limit then { st with soFar := soFar }
      else numberOfReadsLessThanChildren limit cs { visited := m :: st.visited, soFar := soFar }
/-- The loop of `numberOfReadsLessThan` over the children. -/
def numberOfReadsLessThanChildren (limit : Int) : List ASTNode → ReadCount → ReadCount
  | [], st => st
  | c :: cs, st =>
    numberOfReadsLessThanChildren limit cs (numberOfReadsLessThanAux limit c st)
end

/-- The function `numberOfReadsLessThan(n, limit)`: true if the number of reads in `n` is less than
`limit`. -/
def numberOfReadsLessThan (n : ASTNode) (limit : Int) : Bool :=
  decide ((numberOfReadsLessThanAux limit n { visited := [], soFar := 0 }).soFar < limit)

/-- The node numbers of the reads to count below a node: the non-atom nodes of kind `READ`
that are reachable from it, each number once. -/
def readNodeNums (n : ASTNode) : List Nat :=
  ((n.reach.filter (fun m => !m.isAtom && decide (m.GetKind = Kind.READ))).map
    ASTNode.GetNodeNum).dedup

/-- Node numbers identify the nodes reachable from `root`. -/
def UniqueNodeNums (root : ASTNode) : Prop :=
  ∀ a ∈ root.reach, ∀ b ∈ root.reach, a.GetNodeNum = b.GetNodeNum → a = b

/-! ## Collecting symbols -/

/-- The state of `buildListOfSymbols`: the sets `visited` and `symbols`. -/
structure SymbolSets where
  visited : List ASTNode
  symbols : List ASTNode

mutual
/-- The function `buildListOfSymbols(n, visited, symbols)`. -/
def buildListOfSymbols : ASTNode → SymbolSets → SymbolSets
  | .mk k t w i m u cs, st =>
    if .mk k t w i m u cs ∈ st.visited then st
    else
      buildListOfSymbolsChildren cs
        { visited := .mk k t w i m u cs :: st.visited,
          symbols := if k = Kind.SYMBOL then st.symbols.insert (.mk k t w i m u cs)
                     else st.symbols }
/-- The loop of `buildListOfSymbols` over the children. -/
def buildListOfSymbolsChildren : List ASTNode → SymbolSets → SymbolSets
  | [], st => st
  | c :: cs, st => buildListOfSymbolsChildren cs (buildListOfSymbols c st)
end

/-! ## Ordering -/

/-- Sort nodes by expression numbers. -/
def exprless (n1 n2 : ASTNode) : Bool :=
  decide (n1.GetNodeNum < n2.GetNodeNum)

/-- The order for sorting by arithmetic expressions: constants first, symbols next, otherwise
by expression number. -/
def arithless (n1 n2 : ASTNode) : Bool :=
  let k1 := n1.GetKind
  let k2 := n2.GetKind
  if n1 = n2 then
    -- necessary for "strict weak ordering"
    false
  else if Kind.BVCONST = k1 ∧ Kind.BVCONST ≠ k2 then
    -- put consts first
    true
  else if Kind.BVCONST ≠ k1 ∧ Kind.BVCONST = k2 then
    false
  else if Kind.SYMBOL = k1 ∧ Kind.SYMBOL ≠ k2 then
    -- put symbols next
    true
  else if Kind.SYMBOL ≠ k1 ∧ Kind.SYMBOL = k2 then
    false
  else
    decide (n1.GetNodeNum < n2.GetNodeNum)

/-- The function `SortByArith(v)`, which is `sort(v.begin(), v.end(), arithless)`.  The library
routine `std::sort` is taken by its contract, a rearrangement of `v` that is ordered by the
comparison; it is realised by insertion sort. -/
def SortByArith (v : List ASTNode) : List ASTNode :=
  v.insertionSort (fun a b => arithless a b = true)

/-! ## Flattening -/

/-- The state of `FlattenKindNoDuplicates`: the output vector `flat_children` and the set
`alreadyFlattened`. -/
structure FlattenState where
  flat_children : List ASTNode
  alreadyFlattened : List ASTNode

mutual
/-- The body of the loop of `FlattenKindNoDuplicates` for one child `*it`. -/
def FlattenKindNoDuplicatesChild (k : Kind) : ASTNode → FlattenState → FlattenState
  | .mk ck t w i m u cs, st =>
    if k = ck then
      if .mk ck t w i m u cs ∈ st.alreadyFlattened then st
      else
        FlattenKindNoDuplicates k cs
          { st with alreadyFlattened := .mk ck t w i m u cs :: st.alreadyFlattened }
    else
      { st with flat_children := st.flat_children ++ [.mk ck t w i m u cs] }
/-- The function `FlattenKindNoDuplicates(k, children, flat_children, alreadyFlattened)`. -/
def FlattenKindNoDuplicates (k : Kind) : List ASTNode → FlattenState → FlattenState
  | [], st => st
  | c :: cs, st => FlattenKindNoDuplicates k cs (FlattenKindNoDuplicatesChild k c st)
end

mutual
/-- The body of the loop of the three-argument `FlattenKind` for one child `*it`. -/
def FlattenKindIntoChild (k : Kind) : ASTNode → List ASTNode → List ASTNode
  | .mk ck t w i m u cs, flat_children =>
    if k = ck then FlattenKindInto k cs flat_children
    else flat_children ++ [.mk ck t w i m u cs]
/-- The three-argument overload `FlattenKind(k, children, flat_children)`, which appends to
`flat_children`. -/
def FlattenKindInto (k : Kind) : List ASTNode → List ASTNode → List ASTNode
  | [], flat_children => flat_children
  | c :: cs, flat_children => FlattenKindInto k cs (FlattenKindIntoChild k c flat_children)
end

/-- The two-argument `FlattenKind(k, children)`: flatten `(k ... (k ci cj) ...)` to
`(k ... ci cj ...)`. -/
def FlattenKind (k : Kind) (children : List ASTNode) : List ASTNode :=
  if k = Kind.OR ∨ k = Kind.BVOR ∨ k = Kind.BVAND ∨ k = Kind.AND then
    (FlattenKindNoDuplicates k children
      { flat_children := [], alreadyFlattened := [] }).flat_children
  else
    FlattenKindInto k children []

open ASTNode

/-! ## Concrete nodes used in the evaluations below -/

/-- A bit-vector symbol of the given width. -/
def bvSymbol (width num : Nat) : ASTNode :=
  ASTNode.mk Kind.SYMBOL types.BITVECTOR_TYPE width 0 num 0 []

/-- A 32-bit constant of the given value. -/
def bvConst32 (value num : Nat) : ASTNode :=
  ASTNode.mk Kind.BVCONST types.BITVECTOR_TYPE 32 0 num value []

/-- A boolean symbol. -/
def boolSymbol (num : Nat) : ASTNode :=
  ASTNode.mk Kind.SYMBOL types.BOOLEAN_TYPE 0 0 num 0 []

/-- An array symbol. -/
def arraySymbol (indexWidth valueWidth num : Nat) : ASTNode :=
  ASTNode.mk Kind.SYMBOL types.ARRAY_TYPE valueWidth indexWidth num 0 []

/-- The node `BVEXTRACT(x:bv16, const(0), const(1))` declared with width 0: high index 0, low index 1. -/
def extractReversed : ASTNode :=
  ASTNode.mk Kind.BVEXTRACT types.BOOLEAN_TYPE 0 0 4 0 [bvSymbol 16 1, bvConst32 0 2, bvConst32 1 3]

/-- The node `BVEXTRACT(x:bv16, const(1), const(3))` declared with width `2^32 - 1`. -/
def extractWrapped : ASTNode :=
  ASTNode.mk Kind.BVEXTRACT types.BITVECTOR_TYPE 4294967295 0 4 0
    [bvSymbol 16 1, bvConst32 1 2, bvConst32 3 3]

/-- The node `READ(A, i)` with `A : index_width 10, value_width 32`, `i : bv10`, declared with width 32. -/
def readWellFormed : ASTNode :=
  ASTNode.mk Kind.READ types.BITVECTOR_TYPE 32 0 3 0 [arraySymbol 10 32 1, bvSymbol 10 2]

/-- The same `READ(A, i)` declared with width 8. -/
def readMisdeclared : ASTNode :=
  ASTNode.mk Kind.READ types.BITVECTOR_TYPE 8 0 3 0 [arraySymbol 10 32 1, bvSymbol 10 2]

/-- The node `BVCONCAT(a, b)` of two `2^31`-bit symbols, declared with width 0. -/
def concatOverflow : ASTNode :=
  ASTNode.mk Kind.BVCONCAT types.BOOLEAN_TYPE 0 0 3 0
    [bvSymbol 2147483648 1, bvSymbol 2147483648 2]

/-- The node `BVCONCAT(a:4, b:3)` declared with width 7. -/
def concatWellFormed : ASTNode :=
  ASTNode.mk Kind.BVCONCAT types.BITVECTOR_TYPE 7 0 3 0 [bvSymbol 4 1, bvSymbol 3 2]

/-- The node `ITE(cond:bool, then:bv8, else:bv8)`. -/
def iteTerm : ASTNode :=
  ASTNode.mk Kind.ITE types.BITVECTOR_TYPE 8 0 4 0 [boolSymbol 1, bvSymbol 8 2, bvSymbol 8 3]

/-- A formula `ITE` (type `BOOLEAN_TYPE`) with three children, the first of them a bit-vector. -/
def iteFormula : ASTNode :=
  ASTNode.mk Kind.ITE types.BOOLEAN_TYPE 0 0 4 0 [bvSymbol 8 1, boolSymbol 2, boolSymbol 3]

/-- The node `BVPLUS(a:8, b:8)` of width 8. -/
def plusNode : ASTNode :=
  ASTNode.mk Kind.BVPLUS types.BITVECTOR_TYPE 8 0 3 0 [bvSymbol 8 1, bvSymbol 8 2]

/-- The binary arithmetic and shift operators (the first group of `case` labels that runs on
into the shared operand check). -/
def binaryArithKinds : List Kind :=
  [Kind.BVDIV, Kind.BVMOD, Kind.BVSUB, Kind.SBVDIV, Kind.SBVREM, Kind.SBVMOD,
   Kind.BVLEFTSHIFT, Kind.BVRIGHTSHIFT, Kind.BVSRSHIFT]

/-- The variadic bitwise and arithmetic operators (the second group of `case` labels). -/
def bitwiseArithKinds : List Kind :=
  [Kind.BVOR, Kind.BVAND, Kind.BVXOR, Kind.BVNOR, Kind.BVNAND, Kind.BVXNOR,
   Kind.BVPLUS, Kind.BVMULT]

/-- The node `BVPLUS(READ(A, i), READ(A, i))`: both operands are the same node `READ(A, i)`. -/
def sharedReads : ASTNode :=
  ASTNode.mk Kind.BVPLUS types.BITVECTOR_TYPE 32 0 4 0 [readWellFormed, readWellFormed]

/-- The node `OR(b, c)` over two boolean symbols. -/
def orNode : ASTNode :=
  ASTNode.mk Kind.OR types.BOOLEAN_TYPE 0 0 4 0 [boolSymbol 2, boolSymbol 3]

/-- The node `BVPLUS(b:8, c:8)`. -/
def innerPlus : ASTNode :=
  ASTNode.mk Kind.BVPLUS types.BITVECTOR_TYPE 8 0 4 0 [bvSymbol 8 2, bvSymbol 8 3]

/-- The vector `[sym x, const 5, op (x+5), sym y]`. -/
def arithVector : List ASTNode :=
  [bvSymbol 8 1, bvConst32 5 2, plusNode, bvSymbol 8 4]

/-- The node `BVSX` without children. -/
def signExtendNoChildren : ASTNode :=
  ASTNode.mk Kind.BVSX types.BITVECTOR_TYPE 16 0 1 0 []

/-- The node `BVZX` without children. -/
def zeroExtendNoChildren : ASTNode :=
  ASTNode.mk Kind.BVZX types.BITVECTOR_TYPE 16 0 1 0 []

/-- The node `BVLT(a:8, b:8)`. -/
def lessThanNode : ASTNode :=
  ASTNode.mk Kind.BVLT types.BOOLEAN_TYPE 0 0 3 0 [bvSymbol 8 1, bvSymbol 8 2]

/-- The node `BVCONCAT(a, b)` of a `2^32 - 1`-bit symbol and a 2-bit symbol, declared with
width 1. -/
def concatWrapped : ASTNode :=
  ASTNode.mk Kind.BVCONCAT types.BITVECTOR_TYPE 1 0 3 0 [bvSymbol 4294967295 1, bvSymbol 2 2]

/-- The node `BVNOT(BVSX())`: a well-formed `BVNOT` over a `BVSX` node without children. -/
def notOverSignExtend : ASTNode :=
  ASTNode.mk Kind.BVNOT types.BITVECTOR_TYPE 16 0 2 0 [signExtendNoChildren]

/-! ## Predicates used in the statements -/

/-- The outcome of the recursive checker on a node: it returns true and every reachable node
passes, or it fails with the failure of a reachable node. -/
def RecursiveOutcome (n : ASTNode) : Prop :=
  (BVTypeCheckRecursive n = Except.ok true ∧ ∀ m ∈ n.reach, BVTypeCheck m = Except.ok true) ∨
  (∃ m ∈ n.reach, ∃ e, BVTypeCheck m = Except.error e ∧
    BVTypeCheckRecursive n = Except.error e)

/-- The invariant of a visited set during a memoising check below a node of size `s`: every
visited node is either still being processed (it is larger than `s`) or checked throughout. -/
def MemoInv (visited : List ASTNode) (s : Nat) : Prop :=
  ∀ m ∈ visited, s < sizeOf m ∨ BVTypeCheckRecursive m = Except.ok true

/-- What the memoising check does below a node, from a visited set that satisfies the
invariant. -/
def MemoStep (n : ASTNode) : Prop :=
  ∀ visited, MemoInv visited (sizeOf n) →
    Except.map (fun _ => true) (typeCheckRecursiveMemo n visited) = BVTypeCheckRecursive n ∧
    ∀ v1, typeCheckRecursiveMemo n visited = Except.ok v1 →
      ∀ m ∈ v1, m ∈ visited ∨ BVTypeCheckRecursive m = Except.ok true

/-- The invariant of the visited set of a traversal below a node of size `s`: every visited
node is either still being processed (it is larger than `s`) or visited with everything
reachable from it. -/
def VisitedClosed (visited : List ASTNode) (s : Nat) : Prop :=
  ∀ m ∈ visited, s < sizeOf m ∨ ∀ x ∈ m.reach, x ∈ visited

/-- What `buildListOfSymbols` does below a node, from a visited set that satisfies the
invariant: it visits what is reachable, and adds the symbols among the newly visited nodes. -/
def SymbolStep (n : ASTNode) : Prop :=
  ∀ st : SymbolSets, VisitedClosed st.visited (sizeOf n) →
    (∀ m, m ∈ (buildListOfSymbols n st).visited ↔ m ∈ st.visited ∨ m ∈ n.reach) ∧
    (∀ m, m ∈ (buildListOfSymbols n st).symbols ↔
      m ∈ st.symbols ∨ (m ∈ n.reach ∧ m ∉ st.visited ∧ m.GetKind = Kind.SYMBOL)) ∧
    (st.symbols.Nodup → (buildListOfSymbols n st).symbols.Nodup)

/-- The number of reads to count below `root`. -/
def readTotal (root : ASTNode) : Int := ((readNodeNums root).length : Int)

/-- The number of visited node numbers that belong to reads of `root`. -/
def readsAmong (root : ASTNode) (visited : List Nat) : Int :=
  ((visited.filter (fun i => decide (i ∈ readNodeNums root))).length : Int)

/-- The invariant of the state of `numberOfReadsLessThan`: either the counter has passed the
limit, and so has the number of reads of `root`; or it has not, and it counts the reads among
the visited node numbers. -/
def ReadInv (root : ASTNode) (limit : Int) (st : ReadCount) : Prop :=
  (limit < st.soFar ∧ limit < readTotal root) ∨
  (st.soFar ≤ limit ∧ st.visited.Nodup ∧ st.soFar = readsAmong root st.visited)

/-- The invariant of the visited node numbers below a node of size `s`: a visited non-atom is
either still being processed or visited with every non-atom reachable from it. -/
def NumsClosed (root : ASTNode) (visited : List Nat) (s : Nat) : Prop :=
  ∀ m ∈ root.reach, m.isAtom = false → m.GetNodeNum ∈ visited →
    s < sizeOf m ∨ ∀ x ∈ m.reach, x.isAtom = false → x.GetNodeNum ∈ visited

/-- What `numberOfReadsLessThan` does below a node of `root`. -/
def ReadStep (root : ASTNode) (limit : Int) (n : ASTNode) : Prop :=
  ∀ st : ReadCount, ReadInv root limit st →
    (st.soFar ≤ limit → NumsClosed root st.visited (sizeOf n)) →
    ReadInv root limit (numberOfReadsLessThanAux limit n st) ∧
    ((numberOfReadsLessThanAux limit n st).soFar ≤ limit →
      ∀ i, i ∈ (numberOfReadsLessThanAux limit n st).visited ↔
        i ∈ st.visited ∨ ∃ x ∈ n.reach, x.isAtom = false ∧ x.GetNodeNum = i)

/-- The counter after the statement `if (n.GetKind() == READ) soFar++;`. -/
def countRead (k : Kind) (soFar : Int) : Int := if k = Kind.READ then soFar + 1 else soFar

/-- The operands that are not of kind `k` among the nodes `cs` and the children of the nodes
`expanded`, each listed node taken once. -/
def operandsOnce (k : Kind) (cs expanded : List ASTNode) : List ASTNode :=
  (cs ++ expanded.flatMap ASTNode.GetChildren).filter (fun x => decide (x.GetKind ≠ k))

/-- The effect of the duplicate-free flattening of `cs` from the state `st` to the state
`st1`: it appends `new` to the output and enters `expanded` into the set; `new` is a sublist
of the duplicate-preserving flattening of `cs`, and a rearrangement of the operands of `cs` and
of the newly expanded nodes, each of which is of kind `k` and expanded once. -/
def FlattenEffect (k : Kind) (cs : List ASTNode) (st st1 : FlattenState) : Prop :=
  ∃ new expanded : List ASTNode,
    st1.flat_children = st.flat_children ++ new ∧
    st1.alreadyFlattened = expanded ++ st.alreadyFlattened ∧
    new.Sublist (FlattenKindInto k cs []) ∧
    (∀ e ∈ expanded, e.GetKind = k) ∧ expanded.Nodup ∧
    (∀ e ∈ expanded, e ∉ st.alreadyFlattened) ∧
    new.Perm (operandsOnce k cs expanded)

/-- The invariant of the state of the duplicate-free flattening below a node of size `s`: a
node of the set is either still being expanded (it is larger than `s`) or all the operands
that the duplicate-preserving flattening of its children yields are in the output. -/
def FlatClosed (k : Kind) (st : FlattenState) (s : Nat) : Prop :=
  ∀ m ∈ st.alreadyFlattened,
    s < sizeOf m ∨ ∀ x ∈ FlattenKindInto k m.GetChildren [], x ∈ st.flat_children

/-- What the duplicate-free flattening of `cs` reaches from `st` to `st1`, for the comparison
with the duplicate-preserving flattening: the operands of the latter are all in the output, and
so are those of the children of every node newly entered into the set. -/
def FlattenCovers (k : Kind) (cs : List ASTNode) (st st1 : FlattenState) : Prop :=
  (∀ x ∈ FlattenKindInto k cs [], x ∈ st1.flat_children) ∧
  ∀ m ∈ st1.alreadyFlattened, m ∈ st.alreadyFlattened ∨
    ∀ x ∈ FlattenKindInto k m.GetChildren [], x ∈ st1.flat_children

/-- The four kinds that `FlattenKind` flattens without duplicates. -/
def idempotentKinds : List Kind := [Kind.OR, Kind.BVOR, Kind.BVAND, Kind.AND]

/-- The group of a kind in the arithmetic order: constants, then symbols, then the rest. -/
def kindRank (k : Kind) : Nat :=
  if k = Kind.BVCONST then 0 else if k = Kind.SYMBOL then 1 else 2

/-- The order that `arithless` realises on distinct nodes: by group, then by node number. -/
def ArithBefore (a b : ASTNode) : Prop :=
  kindRank a.GetKind < kindRank b.GetKind ∨
    (kindRank a.GetKind = kindRank b.GetKind ∧ a.GetNodeNum < b.GetNodeNum)

/-- The comparison kinds of the formula table. -/
def comparisonKinds : List Kind :=
  [Kind.BVLT, Kind.BVLE, Kind.BVGT, Kind.BVGE, Kind.BVSLT, Kind.BVSLE, Kind.BVSGT, Kind.BVSGE]

/-- The width invariants of the data model (§3) on a node: the index width is nonzero exactly
for arrays, booleans have value width 0, bit-vectors have a nonzero value width, and the type is
one of the three. -/
def WidthInvariant (c : ASTNode) : Prop :=
  (0 < c.GetIndexWidth ↔ c.GetType = types.ARRAY_TYPE) ∧
  (c.GetType = types.BOOLEAN_TYPE → c.GetValueWidth = 0) ∧
  (c.GetType = types.BITVECTOR_TYPE → 0 < c.GetValueWidth) ∧
  (c.GetType = types.BOOLEAN_TYPE ∨ c.GetType = types.BITVECTOR_TYPE ∨
    c.GetType = types.ARRAY_TYPE)

/-! ## Accessors on an explicit node -/

@[simp] theorem GetKind_mk (k t w i m u cs) : (ASTNode.mk k t w i m u cs).GetKind = k := rfl

@[simp] theorem GetType_mk (k t w i m u cs) : (ASTNode.mk k t w i m u cs).GetType = t := rfl

@[simp] theorem GetValueWidth_mk (k t w i m u cs) :
    (ASTNode.mk k t w i m u cs).GetValueWidth = w := rfl

@[simp] theorem GetIndexWidth_mk (k t w i m u cs) :
    (ASTNode.mk k t w i m u cs).GetIndexWidth = i := rfl

@[simp] theorem GetNodeNum_mk (k t w i m u cs) : (ASTNode.mk k t w i m u cs).GetNodeNum = m := rfl

@[simp] theorem GetUnsignedConst_mk (k t w i m u cs) :
    (ASTNode.mk k t w i m u cs).GetUnsignedConst = u := rfl

@[simp] theorem GetChildren_mk (k t w i m u cs) :
    (ASTNode.mk k t w i m u cs).GetChildren = cs := rfl

@[simp] theorem Degree_mk (k t w i m u cs) : (ASTNode.mk k t w i m u cs).Degree = cs.length := rfl

theorem exists_pair_eq {α : Type} (a b : α) (P : α → α → Prop) :
    (∃ c0 c1, [a, b] = [c0, c1] ∧ P c0 c1) ↔ P a b := by
  constructor
  · rintro ⟨c0, c1, h, hp⟩
    simp only [List.cons.injEq, and_true] at h
    obtain ⟨rfl, rfl⟩ := h
    exact hp
  · exact fun h => ⟨a, b, rfl, h⟩

theorem exists_triple_eq {α : Type} (a b c : α) (P : α → α → α → Prop) :
    (∃ c0 c1 c2, [a, b, c] = [c0, c1, c2] ∧ P c0 c1 c2) ↔ P a b c := by
  constructor
  · rintro ⟨c0, c1, c2, h, hp⟩
    simp only [List.cons.injEq, and_true] at h
    obtain ⟨rfl, rfl, rfl⟩ := h
    exact hp
  · exact fun h => ⟨a, b, c, rfl, h⟩

/-! ## Lemmas on the loops of the type checker -/

theorem checkChildrenAreBV_ok (cs : List ASTNode) :
    checkChildrenAreBV cs = Except.ok () ↔ ∀ c ∈ cs, c.GetType = types.BITVECTOR_TYPE := by
  induction cs with
  | nil => simp [checkChildrenAreBV, pure, Except.pure]
  | cons c cs ih =>
    by_cases h : c.GetType = types.BITVECTOR_TYPE <;> simp [checkChildrenAreBV, h, ih, FatalError]

theorem checkChildrenAreBV_fatal (cs : List ASTNode) :
    checkChildrenAreBV cs = Except.ok () ∨
      ∃ msg, checkChildrenAreBV cs = Except.error (Failure.fatal msg) := by
  induction cs with
  | nil => simp [checkChildrenAreBV, pure, Except.pure]
  | cons c cs ih =>
    by_cases h : c.GetType = types.BITVECTOR_TYPE <;> simp [checkChildrenAreBV, h, ih, FatalError]

theorem checkOperands_ok (w : Nat) (cs : List ASTNode) :
    checkOperands w cs = Except.ok () ↔
      ∀ c ∈ cs, c.GetType = types.BITVECTOR_TYPE ∧ c.GetValueWidth = w := by
  induction cs with
  | nil => simp [checkOperands, pure, Except.pure]
  | cons c cs ih =>
    simp only [checkOperands, List.mem_cons, forall_eq_or_imp]
    split_ifs with h1 h2
    · simp only [FatalError, false_iff, reduceCtorEq]
      exact fun h => h1 h.1.2.symm
    · simp only [FatalError, false_iff, reduceCtorEq]
      exact fun h => h2 h.1.1
    · rw [ih]
      exact ⟨fun h => ⟨⟨not_not.1 h2, (not_not.1 h1).symm⟩, h⟩, fun h => h.2⟩

theorem checkOperands_fatal (w : Nat) (cs : List ASTNode) :
    checkOperands w cs = Except.ok () ∨
      ∃ msg, checkOperands w cs = Except.error (Failure.fatal msg) := by
  induction cs with
  | nil => simp [checkOperands, pure, Except.pure]
  | cons c cs ih =>
    simp only [checkOperands]
    split_ifs with h1 h2
    · exact Or.inr ⟨_, rfl⟩
    · exact Or.inr ⟨_, rfl⟩
    · exact ih

theorem checkBitwiseArith_ok (n : ASTNode) :
    checkBitwiseArith n = Except.ok true ↔
      2 ≤ n.Degree ∧
        ∀ c ∈ n.GetChildren, c.GetType = types.BITVECTOR_TYPE ∧ c.GetValueWidth = n.GetValueWidth := by
  unfold checkBitwiseArith Degree
  by_cases h2 : 2 ≤ n.GetChildren.length
  · rcases checkOperands_fatal n.GetValueWidth n.GetChildren with h | ⟨msg, h⟩
    · have h3 := (checkOperands_ok _ _).1 h
      simp [h2, h, bind, Except.bind, pure, Except.pure]
      first | done | exact h3
    · have h3 : ¬ (∀ c ∈ n.GetChildren,
          c.GetType = types.BITVECTOR_TYPE ∧ c.GetValueWidth = n.GetValueWidth) := by
        intro hc
        rw [(checkOperands_ok _ _).2 hc] at h
        cases h
      simp [h2, h, bind, Except.bind, pure, Except.pure]
      simpa using h3
  · simp [h2, bind, Except.bind, FatalError]

theorem checkBitwiseArith_fatal (n : ASTNode) :
    checkBitwiseArith n = Except.ok true ∨
      ∃ msg, checkBitwiseArith n = Except.error (Failure.fatal msg) := by
  unfold checkBitwiseArith
  by_cases h2 : 2 ≤ n.GetChildren.length
  · rcases checkOperands_fatal n.GetValueWidth n.GetChildren with h | ⟨msg, h⟩ <;>
      simp [h2, h, bind, Except.bind, pure, Except.pure]
  · simp [h2, bind, Except.bind, FatalError]

/-! ## The rules of the type checker -/

/-- What the type checker does establish on a `BVEXTRACT` node: it passes exactly when the node
has three children, all of them bit-vectors, the second and third of kind `BVCONST`, the value
width of the node is `high - low + 1` computed modulo `2^32`, and `high` is below the value
width of the first child; in every other case the checker ends in a fatal error. -/
theorem BVTypeCheck_BVEXTRACT_rule (n : ASTNode) (hk : n.GetKind = Kind.BVEXTRACT) :
    (BVTypeCheck n = Except.ok true ↔
      ∃ c0 c1 c2, n.GetChildren = [c0, c1, c2] ∧
        (c0.GetType = types.BITVECTOR_TYPE ∧ c1.GetType = types.BITVECTOR_TYPE ∧
          c2.GetType = types.BITVECTOR_TYPE) ∧
        (Kind.BVCONST = c1.GetKind ∧ Kind.BVCONST = c2.GetKind) ∧
        n.GetValueWidth = uadd32 (usub32 c1.GetUnsignedConst c2.GetUnsignedConst) 1 ∧
        c1.GetUnsignedConst < c0.GetValueWidth) ∧
    (BVTypeCheck n ≠ Except.ok true →
      ∃ msg, BVTypeCheck n = Except.error (Failure.fatal msg)) := by
  obtain ⟨k, t, w, i, m, u, cs⟩ := n
  simp only [GetKind_mk] at hk
  subst hk
  rcases cs with _ | ⟨a, _ | ⟨b, _ | ⟨c, _ | ⟨d, r⟩⟩⟩⟩
  · simp [BVTypeCheck, is_Term_kind, BVTypeCheck_term_kind, checkChildrenAreBV, FatalError,
      bind, Except.bind, pure, Except.pure]
  · cases ha : a.GetType <;>
      simp [BVTypeCheck, is_Term_kind, BVTypeCheck_term_kind, checkChildrenAreBV, FatalError,
        bind, Except.bind, pure, Except.pure, ha]
  · cases ha : a.GetType <;> cases hb : b.GetType <;>
      simp [BVTypeCheck, is_Term_kind, BVTypeCheck_term_kind, checkChildrenAreBV, FatalError,
        bind, Except.bind, pure, Except.pure, ha, hb]
  · simp only [BVTypeCheck, is_Term_kind, BVTypeCheck_term_kind, GetKind_mk, GetChildren_mk,
      GetValueWidth_mk, Degree_mk, checkChildrenAreBV, FatalError, bind, Except.bind,
      ASTNode.child, pure, Except.pure, List.get?, List.length, exists_triple_eq]
    simp only [↓reduceIte, Nat.reduceAdd, ne_eq, not_true_eq_false]
    by_cases ha : a.GetType = types.BITVECTOR_TYPE
    swap
    · simp [ha]
    by_cases hb : b.GetType = types.BITVECTOR_TYPE
    swap
    · simp [ha, hb]
    by_cases hc : c.GetType = types.BITVECTOR_TYPE
    swap
    · simp [ha, hb, hc]
    simp only [ha, hb, hc, not_true_eq_false, ↓reduceIte, true_and, and_self]
    by_cases hk : Kind.BVCONST = b.GetKind ∧ Kind.BVCONST = c.GetKind
    swap
    · rw [if_pos hk]
      exact ⟨⟨fun h => (by cases h), fun h => absurd h.1 hk⟩, fun _ => ⟨_, rfl⟩⟩
    rw [if_neg (not_not.2 hk)]
    by_cases hw : w = uadd32 (usub32 b.GetUnsignedConst c.GetUnsignedConst) 1
    swap
    · rw [if_pos hw]
      exact ⟨⟨fun h => (by cases h), fun h => absurd h.2.1 hw⟩, fun _ => ⟨_, rfl⟩⟩
    rw [if_neg (not_not.2 hw)]
    by_cases ht : b.GetUnsignedConst < a.GetValueWidth
    · rw [if_neg (not_le.2 ht)]
      exact ⟨⟨fun _ => ⟨hk, hw, ht⟩, fun _ => rfl⟩, fun h => absurd rfl h⟩
    · rw [if_pos (not_lt.1 ht)]
      exact ⟨⟨fun h => (by cases h), fun h => absurd h.2.2 ht⟩, fun _ => ⟨_, rfl⟩⟩
  · rcases checkChildrenAreBV_fatal (a :: b :: c :: d :: r) with h | ⟨msg, h⟩ <;>
      simp [BVTypeCheck, is_Term_kind, BVTypeCheck_term_kind, FatalError,
        bind, Except.bind, pure, Except.pure, h]

/-- C1: the type checker accepts `BVEXTRACT(x:bv16, const(0), const(1))` declared with width 0,
an extract whose high index 0 is below its low index 1, and it accepts
`BVEXTRACT(x:bv16, const(1), const(3))` declared with width `2^32 - 1`, whose width is not
`high - low + 1` as an integer: the difference of the two constants wraps modulo `2^32`. -/
theorem BVTypeCheck_BVEXTRACT_reversed_indices :
    extractReversed.GetKind = Kind.BVEXTRACT ∧
    extractReversed.GetChildren = [bvSymbol 16 1, bvConst32 0 2, bvConst32 1 3] ∧
    (bvConst32 0 2).GetUnsignedConst < (bvConst32 1 3).GetUnsignedConst ∧
    BVTypeCheck extractReversed = Except.ok true ∧
    extractWrapped.GetKind = Kind.BVEXTRACT ∧
    extractWrapped.GetChildren = [bvSymbol 16 1, bvConst32 1 2, bvConst32 3 3] ∧
    BVTypeCheck extractWrapped = Except.ok true ∧
    (extractWrapped.GetValueWidth : Int) ≠
      ((bvConst32 1 2).GetUnsignedConst : Int) - ((bvConst32 3 3).GetUnsignedConst : Int) + 1 :=
  ⟨rfl, rfl, by decide, rfl, rfl, rfl, rfl, by decide⟩

/-- C2: a `READ` node passes the type checker exactly when it has two children, the first an
array, the second a bit-vector, and the index width of the first equals the value width of the
second; in every other case the checker ends in a fatal error. -/
theorem BVTypeCheck_READ_iff (n : ASTNode) (hk : n.GetKind = Kind.READ) :
    (BVTypeCheck n = Except.ok true ↔
      ∃ c0 c1, n.GetChildren = [c0, c1] ∧ c0.GetType = types.ARRAY_TYPE ∧
        c1.GetType = types.BITVECTOR_TYPE ∧ c0.GetIndexWidth = c1.GetValueWidth) ∧
    (BVTypeCheck n ≠ Except.ok true →
      ∃ msg, BVTypeCheck n = Except.error (Failure.fatal msg)) := by
  obtain ⟨k, t, w, i, m, u, cs⟩ := n
  simp only [GetKind] at hk
  subst hk
  rcases cs with _ | ⟨a, _ | ⟨b, _ | ⟨c, r⟩⟩⟩ <;>
    simp only [BVTypeCheck, is_Term_kind, BVTypeCheck_term_kind, GetKind_mk, GetChildren_mk,
      FatalError, bind, Except.bind, ASTNode.child, pure, Except.pure, List.get?, List.length,
      exists_pair_eq]
  · simp
  · simp
  · cases ha : a.GetType <;> cases hb : b.GetType <;>
      by_cases hw : a.GetIndexWidth = b.GetValueWidth <;> simp [hw]
  · simp

/-- Witness of `BVTypeCheck_READ_iff` at `READ(A, i)`. -/
theorem BVTypeCheck_READ_iff_witness :
    readWellFormed.GetKind = Kind.READ ∧
    ((BVTypeCheck readWellFormed = Except.ok true ↔
      ∃ c0 c1, readWellFormed.GetChildren = [c0, c1] ∧ c0.GetType = types.ARRAY_TYPE ∧
        c1.GetType = types.BITVECTOR_TYPE ∧ c0.GetIndexWidth = c1.GetValueWidth) ∧
    (BVTypeCheck readWellFormed ≠ Except.ok true →
      ∃ msg, BVTypeCheck readWellFormed = Except.error (Failure.fatal msg))) :=
  ⟨rfl, BVTypeCheck_READ_iff readWellFormed rfl⟩

/-- C3, as stated, fails: `READ(A, i)` over an array of cell width 32, declared with value
width 8, passes the type checker. -/
theorem BVTypeCheck_READ_misdeclared_width_accepted :
    readMisdeclared.GetKind = Kind.READ ∧
    readMisdeclared.GetChildren = [arraySymbol 10 32 1, bvSymbol 10 2] ∧
    BVTypeCheck readMisdeclared = Except.ok true ∧
    readMisdeclared.GetValueWidth = 8 ∧ (arraySymbol 10 32 1).GetValueWidth = 32 :=
  ⟨rfl, rfl, rfl, rfl, rfl⟩

/-- C3, amended: the outcome of the type checker on a `READ` node does not depend on the
value width the node declares. -/
theorem BVTypeCheck_READ_ignores_value_width (n : ASTNode) (hk : n.GetKind = Kind.READ)
    (w : Nat) : BVTypeCheck (n.withValueWidth w) = BVTypeCheck n := by
  obtain ⟨k, t, w0, i, m, u, cs⟩ := n
  simp only [GetKind] at hk
  subst hk
  rfl

/-- Witness of `BVTypeCheck_READ_ignores_value_width` at `READ(A, i)` redeclared with width 8. -/
theorem BVTypeCheck_READ_ignores_value_width_witness :
    readWellFormed.GetKind = Kind.READ ∧
    BVTypeCheck (readWellFormed.withValueWidth 8) = BVTypeCheck readWellFormed :=
  ⟨rfl, BVTypeCheck_READ_ignores_value_width readWellFormed rfl 8⟩

/-- C4: the type checker accepts the concatenation of two `2^31`-bit vectors declared with
width 0, and the concatenation of a `2^32 - 1`-bit vector and a 2-bit vector declared with
width 1: the sum of the widths of the children wraps modulo `2^32`, so in neither node is the
width of the parent the sum of the widths of its children. -/
theorem BVTypeCheck_BVCONCAT_overflow_accepted :
    concatOverflow.GetKind = Kind.BVCONCAT ∧
    concatOverflow.GetChildren = [bvSymbol 2147483648 1, bvSymbol 2147483648 2] ∧
    BVTypeCheck concatOverflow = Except.ok true ∧
    concatOverflow.GetValueWidth ≠
      (bvSymbol 2147483648 1).GetValueWidth + (bvSymbol 2147483648 2).GetValueWidth ∧
    concatWrapped.GetKind = Kind.BVCONCAT ∧
    concatWrapped.GetChildren = [bvSymbol 4294967295 1, bvSymbol 2 2] ∧
    BVTypeCheck concatWrapped = Except.ok true ∧
    concatWrapped.GetValueWidth ≠
      (bvSymbol 4294967295 1).GetValueWidth + (bvSymbol 2 2).GetValueWidth :=
  ⟨rfl, rfl, rfl, by decide, rfl, rfl, rfl, by decide⟩

/-- What the type checker does establish on a `BVCONCAT` node: it passes exactly when the node
has two children, both bit-vectors, and its value width is the sum of their value widths
computed modulo `2^32`; in every other case the checker ends in a fatal error. -/
theorem BVTypeCheck_BVCONCAT_iff (n : ASTNode) (hk : n.GetKind = Kind.BVCONCAT) :
    (BVTypeCheck n = Except.ok true ↔
      ∃ c0 c1, n.GetChildren = [c0, c1] ∧ c0.GetType = types.BITVECTOR_TYPE ∧
        c1.GetType = types.BITVECTOR_TYPE ∧
        n.GetValueWidth = (c0.GetValueWidth + c1.GetValueWidth) % 2 ^ 32) ∧
    (BVTypeCheck n ≠ Except.ok true →
      ∃ msg, BVTypeCheck n = Except.error (Failure.fatal msg)) := by
  obtain ⟨k, t, w, i, m, u, cs⟩ := n
  simp only [GetKind] at hk
  subst hk
  rcases cs with _ | ⟨a, _ | ⟨b, _ | ⟨c, r⟩⟩⟩
  · simp [BVTypeCheck, is_Term_kind, BVTypeCheck_term_kind, checkChildrenAreBV, FatalError,
      bind, Except.bind, pure, Except.pure]
  · cases ha : a.GetType <;>
      simp [BVTypeCheck, is_Term_kind, BVTypeCheck_term_kind, checkChildrenAreBV, FatalError,
        bind, Except.bind, pure, Except.pure, ha]
  · simp only [BVTypeCheck, is_Term_kind, BVTypeCheck_term_kind, GetKind_mk, GetChildren_mk,
      GetValueWidth_mk, Degree_mk, checkChildrenAreBV, uadd32, FatalError, bind, Except.bind,
      ASTNode.child, pure, Except.pure, List.get?, List.length, exists_pair_eq]
    cases ha : a.GetType <;> cases hb : b.GetType <;>
      by_cases hw : w = (a.GetValueWidth + b.GetValueWidth) % 4294967296 <;> simp [hw]
  · rcases checkChildrenAreBV_fatal (a :: b :: c :: r) with h | ⟨msg, h⟩ <;>
      simp [BVTypeCheck, is_Term_kind, BVTypeCheck_term_kind, FatalError,
        bind, Except.bind, pure, Except.pure, h]

/-- Witness of `BVTypeCheck_BVCONCAT_iff` at `BVCONCAT(a:4, b:3)` declared with width 7. -/
theorem BVTypeCheck_BVCONCAT_iff_witness :
    concatWellFormed.GetKind = Kind.BVCONCAT ∧
    ((BVTypeCheck concatWellFormed = Except.ok true ↔
      ∃ c0 c1, concatWellFormed.GetChildren = [c0, c1] ∧ c0.GetType = types.BITVECTOR_TYPE ∧
        c1.GetType = types.BITVECTOR_TYPE ∧
        concatWellFormed.GetValueWidth = (c0.GetValueWidth + c1.GetValueWidth) % 2 ^ 32) ∧
    (BVTypeCheck concatWellFormed ≠ Except.ok true →
      ∃ msg, BVTypeCheck concatWellFormed = Except.error (Failure.fatal msg))) :=
  ⟨rfl, BVTypeCheck_BVCONCAT_iff concatWellFormed rfl⟩

theorem BVTypeCheck_term_kind_ITE (n : ASTNode) :
    (BVTypeCheck_term_kind n Kind.ITE = Except.ok true ↔
      ∃ c0 c1 c2, n.GetChildren = [c0, c1, c2] ∧ c0.GetType = types.BOOLEAN_TYPE ∧
        c1.GetType = c2.GetType ∧ c1.GetValueWidth = c2.GetValueWidth ∧
        c1.GetIndexWidth = c2.GetIndexWidth) ∧
    (BVTypeCheck_term_kind n Kind.ITE ≠ Except.ok true →
      ∃ msg, BVTypeCheck_term_kind n Kind.ITE = Except.error (Failure.fatal msg)) := by
  obtain ⟨k, t, w, i, m, u, cs⟩ := n
  rcases cs with _ | ⟨a, _ | ⟨b, _ | ⟨c, _ | ⟨d, r⟩⟩⟩⟩ <;>
    simp only [BVTypeCheck_term_kind, GetChildren_mk, Degree_mk, FatalError, bind, Except.bind,
      ASTNode.child, pure, Except.pure, List.get?, List.length, exists_triple_eq]
  · simp
  · simp
  · simp
  · cases ha : a.GetType <;> by_cases hbc : b.GetType = c.GetType <;>
      by_cases hw : b.GetValueWidth = c.GetValueWidth <;>
      by_cases hi : b.GetIndexWidth = c.GetIndexWidth <;> simp [hbc, hw, hi]
  · simp

theorem BVTypeCheck_of_ITE (n : ASTNode) (hk : n.GetKind = Kind.ITE) :
    BVTypeCheck n = BVTypeCheck_term_kind n Kind.ITE := by
  simp [BVTypeCheck, hk, is_Term_kind]

/-- C5: an `ITE` node passes the type checker exactly when it has three children, the first
of type `BOOLEAN_TYPE`, the second and third of the same type, value width and index width;
in every other case the checker ends in a fatal error. -/
theorem BVTypeCheck_ITE_iff (n : ASTNode) (hk : n.GetKind = Kind.ITE) :
    (BVTypeCheck n = Except.ok true ↔
      ∃ c0 c1 c2, n.GetChildren = [c0, c1, c2] ∧ c0.GetType = types.BOOLEAN_TYPE ∧
        c1.GetType = c2.GetType ∧ c1.GetValueWidth = c2.GetValueWidth ∧
        c1.GetIndexWidth = c2.GetIndexWidth) ∧
    (BVTypeCheck n ≠ Except.ok true →
      ∃ msg, BVTypeCheck n = Except.error (Failure.fatal msg)) := by
  rw [BVTypeCheck_of_ITE n hk]
  exact BVTypeCheck_term_kind_ITE n

/-- Witness of `BVTypeCheck_ITE_iff` at `ITE(cond:bool, then:bv8, else:bv8)`. -/
theorem BVTypeCheck_ITE_iff_witness :
    iteTerm.GetKind = Kind.ITE ∧
    ((BVTypeCheck iteTerm = Except.ok true ↔
      ∃ c0 c1 c2, iteTerm.GetChildren = [c0, c1, c2] ∧ c0.GetType = types.BOOLEAN_TYPE ∧
        c1.GetType = c2.GetType ∧ c1.GetValueWidth = c2.GetValueWidth ∧
        c1.GetIndexWidth = c2.GetIndexWidth) ∧
    (BVTypeCheck iteTerm ≠ Except.ok true →
      ∃ msg, BVTypeCheck iteTerm = Except.error (Failure.fatal msg))) :=
  ⟨rfl, BVTypeCheck_ITE_iff iteTerm rfl⟩

/-- C6, as stated, fails: an `ITE` node of type `BOOLEAN_TYPE` with exactly three children,
the first of them a bit-vector, ends the entry point `BVTypeCheck` in a fatal error. -/
theorem BVTypeCheck_formula_ITE_rejected :
    iteFormula.GetKind = Kind.ITE ∧ iteFormula.GetType = types.BOOLEAN_TYPE ∧
    iteFormula.Degree = 3 ∧
    BVTypeCheck iteFormula =
      Except.error (Failure.fatal "BVTypeCheck: The term t does not typecheck, where t = \n") :=
  ⟨rfl, rfl, rfl, rfl⟩

/-- C6, amended: on an `ITE` node of type `BOOLEAN_TYPE` the formula table
(`BVTypeCheck_nonterm_kind`) returns true exactly when the node has three children, whatever
they are; the entry point `BVTypeCheck` never consults that table for an `ITE` node: it applies
the term rule, so it returns true exactly when, in addition, the first child is of type
`BOOLEAN_TYPE` and the other two agree in type, value width and index width. -/
theorem BVTypeCheck_formula_ITE (n : ASTNode) (hk : n.GetKind = Kind.ITE)
    (ht : n.GetType = types.BOOLEAN_TYPE) :
    (BVTypeCheck_nonterm_kind n Kind.ITE = Except.ok true ↔ n.Degree = 3) ∧
    BVTypeCheck n = BVTypeCheck_term_kind n Kind.ITE ∧
    (BVTypeCheck n = Except.ok true ↔
      ∃ c0 c1 c2, n.GetChildren = [c0, c1, c2] ∧ c0.GetType = types.BOOLEAN_TYPE ∧
        c1.GetType = c2.GetType ∧ c1.GetValueWidth = c2.GetValueWidth ∧
        c1.GetIndexWidth = c2.GetIndexWidth) := by
  refine ⟨?_, BVTypeCheck_of_ITE n hk, ?_⟩
  swap
  · rw [BVTypeCheck_of_ITE n hk]
    exact (BVTypeCheck_term_kind_ITE n).1
  · by_cases h3 : n.Degree = 3
    · simp [BVTypeCheck_nonterm_kind, is_Form_kind, ht, FatalError, bind, Except.bind, pure,
        Except.pure, h3]
    · have h4 : ¬ 3 = n.Degree := fun h => h3 h.symm
      simp [BVTypeCheck_nonterm_kind, is_Form_kind, ht, FatalError, bind, Except.bind, pure,
        Except.pure, h3, h4]

/-- Witness of `BVTypeCheck_formula_ITE` at a formula `ITE` over a bit-vector condition. -/
theorem BVTypeCheck_formula_ITE_witness :
    iteFormula.GetKind = Kind.ITE ∧ iteFormula.GetType = types.BOOLEAN_TYPE ∧
    ((BVTypeCheck_nonterm_kind iteFormula Kind.ITE = Except.ok true ↔ iteFormula.Degree = 3) ∧
    BVTypeCheck iteFormula = BVTypeCheck_term_kind iteFormula Kind.ITE ∧
    (BVTypeCheck iteFormula = Except.ok true ↔
      ∃ c0 c1 c2, iteFormula.GetChildren = [c0, c1, c2] ∧ c0.GetType = types.BOOLEAN_TYPE ∧
        c1.GetType = c2.GetType ∧ c1.GetValueWidth = c2.GetValueWidth ∧
        c1.GetIndexWidth = c2.GetIndexWidth)) :=
  ⟨rfl, rfl, BVTypeCheck_formula_ITE iteFormula rfl rfl⟩

theorem BVTypeCheck_binaryArith (n : ASTNode) (hk : n.GetKind ∈ binaryArithKinds) :
    BVTypeCheck n =
      if n.Degree ≠ 2 then FatalError "BVTypeCheck: should have exactly 2 args\n"
      else checkBitwiseArith n := by
  simp only [binaryArithKinds, List.mem_cons, List.mem_singleton, List.not_mem_nil,
    or_false] at hk
  rcases hk with h | h | h | h | h | h | h | h | h <;>
    simp only [BVTypeCheck, h, is_Term_kind, BVTypeCheck_term_kind, if_true, bind, Except.bind,
      FatalError] <;>
    split_ifs <;> rfl

theorem BVTypeCheck_bitwiseArith (n : ASTNode) (hk : n.GetKind ∈ bitwiseArithKinds) :
    BVTypeCheck n = checkBitwiseArith n := by
  simp only [bitwiseArithKinds, List.mem_cons, List.mem_singleton, List.not_mem_nil,
    or_false] at hk
  rcases hk with h | h | h | h | h | h | h | h <;>
    simp only [BVTypeCheck, h, is_Term_kind, BVTypeCheck_term_kind, if_true]

/-- C7: a node of kind `BVDIV`, `BVMOD`, `BVSUB`, `SBVDIV`, `SBVREM`, `SBVMOD`, `BVLEFTSHIFT`,
`BVRIGHTSHIFT` or `BVSRSHIFT` passes the type checker exactly when it has two children and
every child is a bit-vector of the value width of the node; a node of kind `BVOR`, `BVAND`,
`BVXOR`, `BVNOR`, `BVNAND`, `BVXNOR`, `BVPLUS` or `BVMULT` passes exactly when it has at least
two children and every child is such; in all other cases the checker ends in a fatal error. -/
theorem BVTypeCheck_equal_width_operators (n : ASTNode)
    (hk : n.GetKind ∈ binaryArithKinds ∨ n.GetKind ∈ bitwiseArithKinds) :
    (n.GetKind ∈ binaryArithKinds →
      (BVTypeCheck n = Except.ok true ↔
        n.Degree = 2 ∧ ∀ c ∈ n.GetChildren,
          c.GetType = types.BITVECTOR_TYPE ∧ c.GetValueWidth = n.GetValueWidth)) ∧
    (n.GetKind ∈ bitwiseArithKinds →
      (BVTypeCheck n = Except.ok true ↔
        2 ≤ n.Degree ∧ ∀ c ∈ n.GetChildren,
          c.GetType = types.BITVECTOR_TYPE ∧ c.GetValueWidth = n.GetValueWidth)) ∧
    (BVTypeCheck n ≠ Except.ok true →
      ∃ msg, BVTypeCheck n = Except.error (Failure.fatal msg)) := by
  refine ⟨fun hb => ?_, fun hv => ?_, fun hne => ?_⟩
  · rw [BVTypeCheck_binaryArith n hb]
    by_cases h2 : n.Degree = 2
    · rw [if_neg (not_not.2 h2), checkBitwiseArith_ok]
      constructor
      · exact fun h => ⟨h2, h.2⟩
      · exact fun h => ⟨by omega, h.2⟩
    · rw [if_pos h2]
      simp [FatalError, h2]
  · rw [BVTypeCheck_bitwiseArith n hv, checkBitwiseArith_ok]
  · rcases hk with hb | hv
    · rw [BVTypeCheck_binaryArith n hb] at hne ⊢
      by_cases h2 : n.Degree = 2
      · rw [if_neg (not_not.2 h2)] at hne ⊢
        exact (checkBitwiseArith_fatal n).resolve_left hne
      · rw [if_pos h2]
        exact ⟨_, rfl⟩
    · rw [BVTypeCheck_bitwiseArith n hv] at hne ⊢
      exact (checkBitwiseArith_fatal n).resolve_left hne

/-- Witness of `BVTypeCheck_equal_width_operators` at `BVPLUS(a:8, b:8)`. -/
theorem BVTypeCheck_equal_width_operators_witness :
    (plusNode.GetKind ∈ binaryArithKinds ∨ plusNode.GetKind ∈ bitwiseArithKinds) ∧
    ((plusNode.GetKind ∈ binaryArithKinds →
      (BVTypeCheck plusNode = Except.ok true ↔
        plusNode.Degree = 2 ∧ ∀ c ∈ plusNode.GetChildren,
          c.GetType = types.BITVECTOR_TYPE ∧ c.GetValueWidth = plusNode.GetValueWidth)) ∧
    (plusNode.GetKind ∈ bitwiseArithKinds →
      (BVTypeCheck plusNode = Except.ok true ↔
        2 ≤ plusNode.Degree ∧ ∀ c ∈ plusNode.GetChildren,
          c.GetType = types.BITVECTOR_TYPE ∧ c.GetValueWidth = plusNode.GetValueWidth)) ∧
    (BVTypeCheck plusNode ≠ Except.ok true →
      ∃ msg, BVTypeCheck plusNode = Except.error (Failure.fatal msg))) :=
  ⟨Or.inr (by decide), BVTypeCheck_equal_width_operators plusNode (Or.inr (by decide))⟩

/-! ## Reachability -/

theorem reach_mk (k t w i m u cs) :
    (ASTNode.mk k t w i m u cs).reach = ASTNode.mk k t w i m u cs :: ASTNode.reachList cs := by
  rw [ASTNode.reach]

theorem reach_eq (n : ASTNode) : n.reach = n :: ASTNode.reachList n.GetChildren := by
  obtain ⟨k, t, w, i, m, u, cs⟩ := n
  rw [reach_mk, GetChildren_mk]

theorem mem_reach_self (n : ASTNode) : n ∈ n.reach := by
  rw [reach_eq]
  exact List.mem_cons_self _ _

theorem mem_reachList (m : ASTNode) (cs : List ASTNode) :
    m ∈ ASTNode.reachList cs ↔ ∃ c ∈ cs, m ∈ c.reach := by
  induction cs with
  | nil => simp [ASTNode.reachList]
  | cons c cs ih => simp [ASTNode.reachList, ih]

theorem mem_reach_iff (m n : ASTNode) :
    m ∈ n.reach ↔ m = n ∨ ∃ c ∈ n.GetChildren, m ∈ c.reach := by
  rw [reach_eq, List.mem_cons, mem_reachList]

theorem sizeOf_child_lt (n c : ASTNode) (hc : c ∈ n.GetChildren) : sizeOf c < sizeOf n := by
  obtain ⟨k, t, w, i, m, u, cs⟩ := n
  rw [GetChildren_mk] at hc
  have h1 := List.sizeOf_lt_of_mem hc
  simp only [ASTNode.mk.sizeOf_spec]
  omega

theorem sizeOf_node_pos (n : ASTNode) : 0 < sizeOf n := by
  obtain ⟨k, t, w, i, m, u, cs⟩ := n
  simp only [ASTNode.mk.sizeOf_spec]
  omega

/-- Induction over a node: a property holds of every node if it holds of a node whenever it
holds of all its children. -/
theorem node_induction {P : ASTNode → Prop}
    (step : ∀ n : ASTNode, (∀ c ∈ n.GetChildren, P c) → P n) (n : ASTNode) : P n := by
  generalize hs : sizeOf n = s
  induction s using Nat.strong_induction_on generalizing n with
  | _ s ih =>
    subst hs
    exact step n (fun c hc => ih (sizeOf c) (sizeOf_child_lt n c hc) c rfl)

theorem sizeOf_le_of_mem_reach (n : ASTNode) : ∀ m ∈ n.reach, sizeOf m ≤ sizeOf n := by
  induction n using node_induction with
  | _ n ih =>
    intro m hm
    rcases (mem_reach_iff m n).1 hm with rfl | ⟨c, hc, hmc⟩
    · omega
    · have h1 := sizeOf_child_lt n c hc
      have h2 := ih c hc m hmc
      omega

theorem reach_trans (n : ASTNode) : ∀ m ∈ n.reach, ∀ x ∈ m.reach, x ∈ n.reach := by
  induction n using node_induction with
  | _ n ih =>
    intro m hm x hx
    rcases (mem_reach_iff m n).1 hm with rfl | ⟨c, hc, hmc⟩
    · exact hx
    · exact (mem_reach_iff x n).2 (Or.inr ⟨c, hc, ih c hc m hmc x hx⟩)

theorem child_mem_reach (n c : ASTNode) (hc : c ∈ n.GetChildren) : c ∈ n.reach :=
  (mem_reach_iff c n).2 (Or.inr ⟨c, hc, mem_reach_self c⟩)

/-! ## Outcomes of the type checker -/

theorem checkBitwiseArith_true (n : ASTNode) (b : Bool)
    (h : checkBitwiseArith n = Except.ok b) : b = true := by
  rcases checkBitwiseArith_fatal n with h1 | ⟨msg, h1⟩
  · rw [h1] at h
    injection h with h
    exact h.symm
  · rw [h1] at h
    cases h

set_option maxHeartbeats 1000000 in
theorem BVTypeCheck_term_kind_true (n : ASTNode) (k : Kind) (b : Bool)
    (h : BVTypeCheck_term_kind n k = Except.ok b) : b = true := by
  cases k <;>
    simp only [BVTypeCheck_term_kind, FatalError, bind, Except.bind, pure, Except.pure] at h <;>
    first
    | exact checkBitwiseArith_true n b h
    | (repeat' split at h) <;>
        first
        | exact checkBitwiseArith_true n b h
        | (cases h <;> rfl)


theorem BVTypeCheck_nonterm_kind_true (n : ASTNode) (k : Kind) (b : Bool)
    (h : BVTypeCheck_nonterm_kind n k = Except.ok b) : b = true := by
  cases k <;>
    simp only [BVTypeCheck_nonterm_kind, FatalError, bind, Except.bind, pure, Except.pure]
      at h <;>
    (repeat' split at h) <;> (cases h <;> rfl)

/-- If the type checker returns, it returns true. -/
theorem BVTypeCheck_true (n : ASTNode) (b : Bool) (h : BVTypeCheck n = Except.ok b) :
    b = true := by
  unfold BVTypeCheck at h
  simp only at h
  split at h
  · exact BVTypeCheck_term_kind_true n _ b h
  · exact BVTypeCheck_nonterm_kind_true n _ b h

/-- The type checker returns true or fails. -/
theorem BVTypeCheck_cases (n : ASTNode) :
    BVTypeCheck n = Except.ok true ∨ ∃ e, BVTypeCheck n = Except.error e := by
  cases h : BVTypeCheck n with
  | error e => exact Or.inr ⟨e, rfl⟩
  | ok b => rw [BVTypeCheck_true n b h]; exact Or.inl rfl

/-! ## The recursive type checker -/

theorem BVTypeCheckRecursive_eq (n : ASTNode) :
    BVTypeCheckRecursive n =
      (BVTypeCheck n >>= fun _ =>
        BVTypeCheckRecursiveChildren n.GetChildren >>= fun _ => pure true) := by
  obtain ⟨k, t, w, i, m, u, cs⟩ := n
  rw [BVTypeCheckRecursive]
  rfl

theorem BVTypeCheckRecursiveChildren_cons (c : ASTNode) (cs : List ASTNode) :
    BVTypeCheckRecursiveChildren (c :: cs) =
      (BVTypeCheckRecursive c >>= fun _ => BVTypeCheckRecursiveChildren cs) := by
  rw [BVTypeCheckRecursiveChildren]

theorem BVTypeCheckRecursiveChildren_cases (cs : List ASTNode)
    (ih : ∀ c ∈ cs, RecursiveOutcome c) :
    (BVTypeCheckRecursiveChildren cs = Except.ok () ∧
      ∀ m ∈ ASTNode.reachList cs, BVTypeCheck m = Except.ok true) ∨
    (∃ m ∈ ASTNode.reachList cs, ∃ e, BVTypeCheck m = Except.error e ∧
      BVTypeCheckRecursiveChildren cs = Except.error e) := by
  induction cs with
  | nil =>
    left
    exact ⟨by rw [BVTypeCheckRecursiveChildren]; rfl, by simp [ASTNode.reachList]⟩
  | cons c cs ihcs =>
    rw [BVTypeCheckRecursiveChildren_cons]
    rcases ih c (List.mem_cons_self _ _) with ⟨h1, h2⟩ | ⟨m, hm, e, h1, h2⟩
    · rcases ihcs (fun d hd => ih d (List.mem_cons_of_mem _ hd)) with
        ⟨h3, h4⟩ | ⟨m, hm, e, h3, h4⟩
      · left
        refine ⟨by rw [h1]; exact h3, ?_⟩
        intro m hm
        rw [ASTNode.reachList, List.mem_append] at hm
        exact hm.elim (h2 m) (h4 m)
      · right
        refine ⟨m, ?_, e, h3, by rw [h1]; exact h4⟩
        rw [ASTNode.reachList, List.mem_append]
        exact Or.inr hm
    · right
      refine ⟨m, ?_, e, h1, by rw [h2]; rfl⟩
      rw [ASTNode.reachList, List.mem_append]
      exact Or.inl hm

theorem BVTypeCheckRecursive_cases (n : ASTNode) : RecursiveOutcome n := by
  induction n using node_induction with
  | _ n ih =>
    unfold RecursiveOutcome
    rw [BVTypeCheckRecursive_eq, reach_eq]
    rcases BVTypeCheck_cases n with h | ⟨e, h⟩
    · rcases BVTypeCheckRecursiveChildren_cases n.GetChildren ih with
        ⟨h3, h4⟩ | ⟨m, hm, e, h3, h4⟩
      · left
        refine ⟨by rw [h, h3]; rfl, ?_⟩
        intro m hm
        rcases List.mem_cons.1 hm with rfl | hm
        · exact h
        · exact h4 m hm
      · right
        exact ⟨m, List.mem_cons_of_mem _ hm, e, h3, by rw [h, h4]; rfl⟩
    · right
      exact ⟨n, List.mem_cons_self _ _, e, h, by rw [h]; rfl⟩

theorem BVTypeCheckRecursive_ok_iff (n : ASTNode) :
    BVTypeCheckRecursive n = Except.ok true ↔
      ∀ m ∈ n.reach, BVTypeCheck m = Except.ok true := by
  rcases BVTypeCheckRecursive_cases n with ⟨h1, h2⟩ | ⟨m, hm, e, h1, h2⟩
  · exact ⟨fun _ => h2, fun _ => h1⟩
  · constructor
    · intro h
      rw [h2] at h
      cases h
    · intro h
      rw [h m hm] at h1
      cases h1

theorem typeCheckRecursiveMemo_eq (n : ASTNode) (visited : List ASTNode) :
    typeCheckRecursiveMemo n visited =
      if n ∈ visited then pure visited
      else BVTypeCheck n >>= fun _ =>
        typeCheckRecursiveMemoChildren n.GetChildren (n :: visited) := by
  obtain ⟨k, t, w, i, m, u, cs⟩ := n
  rw [typeCheckRecursiveMemo]
  rfl

theorem typeCheckRecursiveMemoChildren_cons (c : ASTNode) (cs visited : List ASTNode) :
    typeCheckRecursiveMemoChildren (c :: cs) visited =
      (typeCheckRecursiveMemo c visited >>= fun v1 => typeCheckRecursiveMemoChildren cs v1) := by
  rw [typeCheckRecursiveMemoChildren]

theorem MemoInv_mono {visited : List ASTNode} {s s1 : Nat} (h : MemoInv visited s)
    (hs : s1 ≤ s) : MemoInv visited s1 := by
  intro m hm
  rcases h m hm with h1 | h1
  · exact Or.inl (by omega)
  · exact Or.inr h1

theorem typeCheckRecursiveMemoChildren_spec (cs : List ASTNode)
    (ih : ∀ c ∈ cs, MemoStep c) :
    ∀ visited s, (∀ c ∈ cs, sizeOf c ≤ s) → MemoInv visited s →
      Except.map (fun _ => ()) (typeCheckRecursiveMemoChildren cs visited) =
        BVTypeCheckRecursiveChildren cs ∧
      ∀ v1, typeCheckRecursiveMemoChildren cs visited = Except.ok v1 →
        ∀ m ∈ v1, m ∈ visited ∨ BVTypeCheckRecursive m = Except.ok true := by
  induction cs with
  | nil =>
    intro visited s _ _
    rw [typeCheckRecursiveMemoChildren, BVTypeCheckRecursiveChildren]
    refine ⟨rfl, ?_⟩
    intro v1 h1 m hm
    cases h1
    exact Or.inl hm
  | cons c cs ihcs =>
    intro visited s hsz hinv
    rw [typeCheckRecursiveMemoChildren_cons, BVTypeCheckRecursiveChildren_cons]
    obtain ⟨h1, h2⟩ := ih c (List.mem_cons_self _ _) visited
      (MemoInv_mono hinv (hsz c (List.mem_cons_self _ _)))
    cases hc : typeCheckRecursiveMemo c visited with
    | error e =>
      rw [hc] at h1
      rw [← h1]
      refine ⟨rfl, ?_⟩
      intro v1 hv
      cases hv
    | ok v0 =>
      rw [hc] at h1
      rw [← h1]
      have hinv0 : MemoInv v0 s := by
        intro m hm
        rcases h2 v0 hc m hm with h3 | h3
        · exact hinv m h3
        · exact Or.inr h3
      obtain ⟨h4, h5⟩ := ihcs (fun d hd => ih d (List.mem_cons_of_mem _ hd)) v0 s
        (fun d hd => hsz d (List.mem_cons_of_mem _ hd)) hinv0
      refine ⟨h4, ?_⟩
      intro v1 hv m hm
      rcases h5 v1 hv m hm with h6 | h6
      · exact h2 v0 hc m h6
      · exact Or.inr h6

theorem typeCheckRecursiveMemo_spec (n : ASTNode) : MemoStep n := by
  induction n using node_induction with
  | _ n ih =>
    intro visited hinv
    rw [typeCheckRecursiveMemo_eq]
    by_cases hn : n ∈ visited
    · rw [if_pos hn]
      have hv : BVTypeCheckRecursive n = Except.ok true := by
        rcases hinv n hn with h | h
        · omega
        · exact h
      refine ⟨by rw [hv]; rfl, ?_⟩
      intro v1 h1 m hm
      cases h1
      exact Or.inl hm
    · rw [if_neg hn, BVTypeCheckRecursive_eq]
      rcases BVTypeCheck_cases n with h | ⟨e, h⟩
      · rw [h]
        have hinv1 : MemoInv (n :: visited) (sizeOf n - 1) := by
          intro m hm
          rcases List.mem_cons.1 hm with rfl | hm
          · left
            obtain ⟨k, t, w, i, m, u, cs⟩ := m
            simp only [ASTNode.mk.sizeOf_spec]
            omega
          · exact MemoInv_mono hinv (Nat.sub_le _ _) m hm
        obtain ⟨h4, h5⟩ := typeCheckRecursiveMemoChildren_spec n.GetChildren ih
          (n :: visited) (sizeOf n - 1)
          (fun c hc => by have := sizeOf_child_lt n c hc; omega) hinv1
        cases hc : typeCheckRecursiveMemoChildren n.GetChildren (n :: visited) with
        | error e =>
          rw [hc] at h4
          rw [← h4]
          refine ⟨?_, ?_⟩
          · simp only [bind, Except.bind, hc]
            rfl
          · intro v1 hv
            simp only [bind, Except.bind, hc] at hv
            cases hv
        | ok v0 =>
          rw [hc] at h4
          rw [← h4]
          refine ⟨?_, ?_⟩
          · simp only [bind, Except.bind, hc]
            rfl
          · intro v1 hv m hm
            simp only [bind, Except.bind, hc] at hv
            cases hv
            rcases h5 v0 hc m hm with h6 | h6
            · rcases List.mem_cons.1 h6 with rfl | h6
              · right
                rw [BVTypeCheckRecursive_eq, h, ← h4]
                rfl
              · exact Or.inl h6
            · exact Or.inr h6
      · rw [h]
        refine ⟨rfl, ?_⟩
        intro v1 hv
        cases hv

/-- What the recursive checker does establish: it returns true exactly when the checker passes
on every node reachable from `n`; otherwise it fails with the failure the checker raises at a
node reachable from `n`; and the memoising variant, which checks each distinct node once, ends
with the same outcome. -/
theorem BVTypeCheckRecursive_iff (n : ASTNode) :
    (BVTypeCheckRecursive n = Except.ok true ↔
      ∀ m ∈ n.reach, BVTypeCheck m = Except.ok true) ∧
    (BVTypeCheckRecursive n ≠ Except.ok true →
      ∃ m ∈ n.reach, ∃ e, BVTypeCheck m = Except.error e ∧
        BVTypeCheckRecursive n = Except.error e) ∧
    Except.map (fun _ => true) (typeCheckRecursiveMemo n []) = BVTypeCheckRecursive n := by
  refine ⟨BVTypeCheckRecursive_ok_iff n, ?_, ?_⟩
  · intro hne
    rcases BVTypeCheckRecursive_cases n with ⟨h1, _⟩ | h
    · exact absurd h1 hne
    · exact h
  · exact (typeCheckRecursiveMemo_spec n [] (fun m hm => by cases hm)).1

/-- C8: on `BVNOT(BVSX())` the root passes the type checker and the reachable `BVSX` node
without children violates its rule, yet the recursive checker does not signal a fatal error:
it ends in the read of the missing child 0 of the `BVSX` node. -/
theorem BVTypeCheckRecursive_reads_missing_child :
    signExtendNoChildren ∈ notOverSignExtend.reach ∧
    BVTypeCheck notOverSignExtend = Except.ok true ∧
    BVTypeCheck signExtendNoChildren = Except.error (Failure.outOfRange 0) ∧
    BVTypeCheckRecursive notOverSignExtend = Except.error (Failure.outOfRange 0) ∧
    ∀ msg, BVTypeCheckRecursive notOverSignExtend ≠ Except.error (Failure.fatal msg) := by
  refine ⟨by decide, rfl, rfl, rfl, ?_⟩
  intro msg h
  have h1 : BVTypeCheckRecursive notOverSignExtend = Except.error (Failure.outOfRange 0) := rfl
  rw [h1] at h
  cases h

/-! ## Counting reads -/

theorem numberOfReadsLessThanAux_eq (limit : Int) (n : ASTNode) (st : ReadCount) :
    numberOfReadsLessThanAux limit n st =
      if n.isAtom = true then st
      else if n.GetNodeNum ∈ st.visited then st
      else if countRead n.GetKind st.soFar > limit then
        { st with soFar := countRead n.GetKind st.soFar }
      else numberOfReadsLessThanChildren limit n.GetChildren
        { visited := n.GetNodeNum :: st.visited,
          soFar := countRead n.GetKind st.soFar } := by
  obtain ⟨k, t, w, i, m, u, cs⟩ := n
  rw [numberOfReadsLessThanAux]
  rfl

theorem soFar_step_le (k : Kind) (s : Int) : s ≤ countRead k s := by
  unfold countRead
  split_ifs <;> omega

theorem numberOfReadsLessThanChildren_soFar_le (limit : Int) (cs : List ASTNode)
    (ih : ∀ c ∈ cs, ∀ st, st.soFar ≤ (numberOfReadsLessThanAux limit c st).soFar) :
    ∀ st, st.soFar ≤ (numberOfReadsLessThanChildren limit cs st).soFar := by
  induction cs with
  | nil =>
    intro st
    rw [numberOfReadsLessThanChildren]
  | cons c cs ihcs =>
    intro st
    rw [numberOfReadsLessThanChildren]
    exact le_trans (ih c (List.mem_cons_self _ _) st)
      (ihcs (fun d hd => ih d (List.mem_cons_of_mem _ hd)) _)

/-- The counter never decreases. -/
theorem numberOfReadsLessThanAux_soFar_le (limit : Int) (n : ASTNode) :
    ∀ st, st.soFar ≤ (numberOfReadsLessThanAux limit n st).soFar := by
  induction n using node_induction with
  | _ n ih =>
    intro st
    rw [numberOfReadsLessThanAux_eq]
    split_ifs with h1 h2 h3
    · exact le_refl _
    · exact le_refl _
    · exact soFar_step_le _ _
    · exact le_trans (soFar_step_le n.GetKind st.soFar)
        (numberOfReadsLessThanChildren_soFar_le limit n.GetChildren ih _)

theorem mem_readNodeNums (root : ASTNode) (i : Nat) :
    i ∈ readNodeNums root ↔
      ∃ m ∈ root.reach, m.isAtom = false ∧ m.GetKind = Kind.READ ∧ m.GetNodeNum = i := by
  simp only [readNodeNums, List.mem_dedup, List.mem_map, List.mem_filter, Bool.and_eq_true,
    Bool.not_eq_true', decide_eq_true_eq]
  constructor
  · rintro ⟨m, ⟨h1, h2, h3⟩, h4⟩
    exact ⟨m, h1, h2, h3, h4⟩
  · rintro ⟨m, h1, h2, h3, h4⟩
    exact ⟨m, ⟨h1, h2, h3⟩, h4⟩

theorem readsAmong_le (root : ASTNode) (visited : List Nat) (hnd : visited.Nodup) :
    readsAmong root visited ≤ readTotal root := by
  unfold readsAmong readTotal
  have h1 : (visited.filter (fun i => decide (i ∈ readNodeNums root))).Nodup := hnd.filter _
  have h2 : visited.filter (fun i => decide (i ∈ readNodeNums root)) ⊆ readNodeNums root := by
    intro i hi
    simpa using (List.mem_filter.1 hi).2
  exact_mod_cast (List.subperm_of_subset h1 h2).length_le

theorem readsAmong_eq (root : ASTNode) (visited : List Nat) (hnd : visited.Nodup)
    (hall : ∀ i ∈ readNodeNums root, i ∈ visited) :
    readsAmong root visited = readTotal root := by
  apply le_antisymm (readsAmong_le root visited hnd)
  unfold readsAmong readTotal
  have h1 : (readNodeNums root).Nodup := List.nodup_dedup _
  have h2 : readNodeNums root ⊆ visited.filter (fun i => decide (i ∈ readNodeNums root)) := by
    intro i hi
    exact List.mem_filter.2 ⟨hall i hi, by simpa using hi⟩
  exact_mod_cast (List.subperm_of_subset h1 h2).length_le

theorem readsAmong_cons (root : ASTNode) (n : ASTNode) (visited : List Nat)
    (hU : UniqueNodeNums root) (hn : n ∈ root.reach) (ha : n.isAtom = false) :
    readsAmong root (n.GetNodeNum :: visited) =
      countRead n.GetKind (readsAmong root visited) := by
  unfold readsAmong countRead
  by_cases hk : n.GetKind = Kind.READ
  · have h : n.GetNodeNum ∈ readNodeNums root :=
      (mem_readNodeNums root _).2 ⟨n, hn, ha, hk, rfl⟩
    simp [List.filter_cons, h, hk]
  · have h : n.GetNodeNum ∉ readNodeNums root := by
      intro h
      obtain ⟨m, h1, _, h3, h4⟩ := (mem_readNodeNums root _).1 h
      rw [hU m h1 n hn h4] at h3
      exact hk h3
    simp [List.filter_cons, h, hk]

theorem ReadInv_of_exceeded (root : ASTNode) (limit : Int) (st st1 : ReadCount)
    (hinv : ReadInv root limit st) (hx : limit < st.soFar) (hle : st.soFar ≤ st1.soFar) :
    ReadInv root limit st1 := by
  rcases hinv with ⟨_, h2⟩ | ⟨h1, _⟩
  · exact Or.inl ⟨by omega, h2⟩
  · omega

theorem NumsClosed_mono {root : ASTNode} {visited : List Nat} {s s1 : Nat}
    (h : NumsClosed root visited s) (hs : s1 ≤ s) : NumsClosed root visited s1 := by
  intro m hm ha hv
  rcases h m hm ha hv with h1 | h1
  · exact Or.inl (by omega)
  · exact Or.inr h1

theorem reach_of_isAtom (n : ASTNode) (ha : n.isAtom = true) : n.reach = [n] := by
  rw [reach_eq]
  have h : n.GetChildren = [] := by
    simpa [ASTNode.isAtom, List.isEmpty_iff] using ha
  rw [h, ASTNode.reachList]

theorem numberOfReadsLessThanChildren_spec (root : ASTNode) (limit : Int)
    (hU : UniqueNodeNums root) (cs : List ASTNode) (hcs : ∀ c ∈ cs, c ∈ root.reach)
    (ih : ∀ c ∈ cs, ReadStep root limit c) :
    ∀ (st : ReadCount) (s : Nat), (∀ c ∈ cs, sizeOf c ≤ s) → ReadInv root limit st →
      (st.soFar ≤ limit → NumsClosed root st.visited s) →
      ReadInv root limit (numberOfReadsLessThanChildren limit cs st) ∧
      ((numberOfReadsLessThanChildren limit cs st).soFar ≤ limit →
        ∀ i, i ∈ (numberOfReadsLessThanChildren limit cs st).visited ↔
          i ∈ st.visited ∨ ∃ x ∈ ASTNode.reachList cs, x.isAtom = false ∧ x.GetNodeNum = i) := by
  induction cs with
  | nil =>
    intro st s _ hinv _
    rw [numberOfReadsLessThanChildren]
    exact ⟨hinv, fun _ i => by simp [ASTNode.reachList]⟩
  | cons c cs ihcs =>
    intro st s hsz hinv hcl
    rw [numberOfReadsLessThanChildren]
    have hc := hcs c (List.mem_cons_self _ _)
    obtain ⟨h1, h2⟩ := ih c (List.mem_cons_self _ _) st hinv
      (fun h => NumsClosed_mono (hcl h) (hsz c (List.mem_cons_self _ _)))
    have hmono := numberOfReadsLessThanAux_soFar_le limit c st
    have hcl1 : (numberOfReadsLessThanAux limit c st).soFar ≤ limit →
        NumsClosed root (numberOfReadsLessThanAux limit c st).visited s := by
      intro hle m hm ha hv
      rcases (h2 hle _).1 hv with h | ⟨x, hx, hxa, hxn⟩
      · rcases hcl (by omega) m hm ha h with h3 | h3
        · exact Or.inl h3
        · exact Or.inr (fun y hy hya => (h2 hle _).2 (Or.inl (h3 y hy hya)))
      · have hxm : x = m := hU x (reach_trans root c hc x hx) m hm hxn
        subst hxm
        exact Or.inr (fun y hy hya =>
          (h2 hle _).2 (Or.inr ⟨y, reach_trans c x hx y hy, hya, rfl⟩))
    obtain ⟨h4, h5⟩ := ihcs (fun d hd => hcs d (List.mem_cons_of_mem _ hd))
      (fun d hd => ih d (List.mem_cons_of_mem _ hd))
      (numberOfReadsLessThanAux limit c st) s
      (fun d hd => hsz d (List.mem_cons_of_mem _ hd)) h1 hcl1
    refine ⟨h4, ?_⟩
    intro hle i
    have hmono2 := numberOfReadsLessThanChildren_soFar_le limit cs
      (fun d _ => numberOfReadsLessThanAux_soFar_le limit d)
      (numberOfReadsLessThanAux limit c st)
    rw [h5 hle i, h2 (by omega) i, ASTNode.reachList]
    simp only [List.mem_append]
    constructor
    · rintro ((h | ⟨x, hx, hxa, hxn⟩) | ⟨x, hx, hxa, hxn⟩)
      · exact Or.inl h
      · exact Or.inr ⟨x, Or.inl hx, hxa, hxn⟩
      · exact Or.inr ⟨x, Or.inr hx, hxa, hxn⟩
    · rintro (h | ⟨x, hx | hx, hxa, hxn⟩)
      · exact Or.inl (Or.inl h)
      · exact Or.inl (Or.inr ⟨x, hx, hxa, hxn⟩)
      · exact Or.inr ⟨x, hx, hxa, hxn⟩

theorem numberOfReadsLessThanAux_step (root : ASTNode) (limit : Int)
    (hU : UniqueNodeNums root) (n : ASTNode) : n ∈ root.reach → ReadStep root limit n := by
  induction n using node_induction with
  | _ n ih =>
    intro hn st hinv hcl
    have hmono := numberOfReadsLessThanAux_soFar_le limit n st
    by_cases hx : limit < st.soFar
    · exact ⟨ReadInv_of_exceeded root limit st _ hinv hx hmono, fun h => by omega⟩
    have hle : st.soFar ≤ limit := by omega
    have hgood : st.visited.Nodup ∧ st.soFar = readsAmong root st.visited := by
      rcases hinv with ⟨h1, _⟩ | ⟨_, h2⟩
      · omega
      · exact h2
    rw [numberOfReadsLessThanAux_eq]
    by_cases ha : n.isAtom = true
    · rw [if_pos ha]
      refine ⟨hinv, fun _ i => ⟨Or.inl, fun h => h.elim id ?_⟩⟩
      rintro ⟨x, hx1, hxa, _⟩
      rw [reach_of_isAtom n ha, List.mem_singleton] at hx1
      rw [hx1, ha] at hxa
      cases hxa
    rw [if_neg ha]
    have ha1 : n.isAtom = false := by simpa using ha
    by_cases hv : n.GetNodeNum ∈ st.visited
    · rw [if_pos hv]
      refine ⟨hinv, fun _ i => ⟨Or.inl, fun h => h.elim id ?_⟩⟩
      rintro ⟨x, hx1, hxa, rfl⟩
      rcases hcl hle n hn ha1 hv with h | h
      · omega
      · exact h x hx1 hxa
    rw [if_neg hv]
    have hcount : countRead n.GetKind st.soFar =
        readsAmong root (n.GetNodeNum :: st.visited) := by
      rw [readsAmong_cons root n st.visited hU hn ha1, ← hgood.2]
    have hnd : (n.GetNodeNum :: st.visited).Nodup := List.nodup_cons.2 ⟨hv, hgood.1⟩
    by_cases hgt : countRead n.GetKind st.soFar > limit
    · rw [if_pos hgt]
      refine ⟨Or.inl ⟨hgt, ?_⟩, fun h => ?_⟩
      · have := readsAmong_le root _ hnd
        omega
      · exact absurd h (by simpa using hgt)
    rw [if_neg hgt]
    have hinv1 : ReadInv root limit
        { visited := n.GetNodeNum :: st.visited, soFar := countRead n.GetKind st.soFar } :=
      Or.inr ⟨by simpa using hgt, hnd, hcount⟩
    have hcl1 : NumsClosed root (n.GetNodeNum :: st.visited) (sizeOf n - 1) := by
      intro m hm hma hmv
      rcases List.mem_cons.1 hmv with h | h
      · have hmn : m = n := hU m hm n hn h
        subst hmn
        left
        have := sizeOf_node_pos m
        omega
      · rcases hcl hle m hm hma h with h3 | h3
        · exact Or.inl (by omega)
        · exact Or.inr (fun y hy hya => List.mem_cons_of_mem _ (h3 y hy hya))
    obtain ⟨h4, h5⟩ := numberOfReadsLessThanChildren_spec root limit hU n.GetChildren
      (fun c hc => reach_trans root n hn c (child_mem_reach n c hc))
      (fun c hc => ih c hc (reach_trans root n hn c (child_mem_reach n c hc)))
      { visited := n.GetNodeNum :: st.visited, soFar := countRead n.GetKind st.soFar }
      (sizeOf n - 1) (fun c hc => by have := sizeOf_child_lt n c hc; omega) hinv1
      (fun _ => hcl1)
    refine ⟨h4, fun hle2 i => ?_⟩
    rw [h5 hle2 i, reach_eq n]
    simp only [List.mem_cons]
    constructor
    · rintro ((h | h) | ⟨x, hx1, hxa, hxn⟩)
      · exact Or.inr ⟨n, Or.inl rfl, ha1, h.symm⟩
      · exact Or.inl h
      · exact Or.inr ⟨x, Or.inr hx1, hxa, hxn⟩
    · rintro (h | ⟨x, rfl | hx1, hxa, hxn⟩)
      · exact Or.inl (Or.inr h)
      · exact Or.inl (Or.inl hxn.symm)
      · exact Or.inr ⟨x, hx1, hxa, hxn⟩

/-- C9: on a graph whose node numbers identify its nodes, `numberOfReadsLessThan(root, limit)`
is true exactly when the number of distinct non-atom nodes of kind `READ` reachable from `root`
(distinct node numbers, a shared node counted once) is strictly less than `limit`; the early
return once the counter has passed `limit` does not change the answer. -/
theorem numberOfReadsLessThan_iff (root : ASTNode) (limit : Int) (hU : UniqueNodeNums root) :
    numberOfReadsLessThan root limit = true ↔ ((readNodeNums root).length : Int) < limit := by
  have hinv0 : ReadInv root limit { visited := [], soFar := 0 } := by
    by_cases h0 : (0 : Int) ≤ limit
    · exact Or.inr ⟨h0, List.nodup_nil, rfl⟩
    · refine Or.inl ⟨by simpa using h0, ?_⟩
      have : (0 : Int) ≤ readTotal root := by
        unfold readTotal
        exact Int.natCast_nonneg _
      simp only [not_le] at h0
      omega
  obtain ⟨h1, h2⟩ := numberOfReadsLessThanAux_step root limit hU root (mem_reach_self root)
    { visited := [], soFar := 0 } hinv0 (fun _ m _ _ hv => by cases hv)
  unfold numberOfReadsLessThan
  rw [decide_eq_true_eq]
  rcases h1 with ⟨h3, h4⟩ | ⟨h3, h4, h5⟩
  · unfold readTotal at h4
    constructor <;> intro h <;> omega
  · have hall : ∀ i ∈ readNodeNums root,
        i ∈ (numberOfReadsLessThanAux limit root { visited := [], soFar := 0 }).visited := by
      intro i hi
      obtain ⟨m, hm1, hm2, _, hm4⟩ := (mem_readNodeNums root i).1 hi
      exact (h2 h3 i).2 (Or.inr ⟨m, hm1, hm2, hm4⟩)
    rw [h5, readsAmong_eq root _ h4 hall]
    rfl

/-- Witness of `numberOfReadsLessThan_iff` at `BVPLUS(READ(A, i), READ(A, i))`, whose two
operands are one shared node, with limit 2. -/
theorem numberOfReadsLessThan_iff_witness :
    UniqueNodeNums sharedReads ∧
    (numberOfReadsLessThan sharedReads 2 = true ↔
      ((readNodeNums sharedReads).length : Int) < 2) :=
  ⟨by unfold UniqueNodeNums; decide, numberOfReadsLessThan_iff sharedReads 2
    (by unfold UniqueNodeNums; decide)⟩

/-! ## Collecting symbols -/

theorem buildListOfSymbols_eq (n : ASTNode) (st : SymbolSets) :
    buildListOfSymbols n st =
      if n ∈ st.visited then st
      else buildListOfSymbolsChildren n.GetChildren
        { visited := n :: st.visited,
          symbols := if n.GetKind = Kind.SYMBOL then st.symbols.insert n else st.symbols } := by
  obtain ⟨k, t, w, i, m, u, cs⟩ := n
  rw [buildListOfSymbols]
  rfl

theorem VisitedClosed_mono {visited : List ASTNode} {s s1 : Nat} (h : VisitedClosed visited s)
    (hs : s1 ≤ s) : VisitedClosed visited s1 := by
  intro m hm
  rcases h m hm with h1 | h1
  · exact Or.inl (by omega)
  · exact Or.inr h1

theorem buildListOfSymbolsChildren_spec (cs : List ASTNode) (ih : ∀ c ∈ cs, SymbolStep c) :
    ∀ (st : SymbolSets) (s : Nat), (∀ c ∈ cs, sizeOf c ≤ s) → VisitedClosed st.visited s →
      (∀ m, m ∈ (buildListOfSymbolsChildren cs st).visited ↔
        m ∈ st.visited ∨ m ∈ ASTNode.reachList cs) ∧
      (∀ m, m ∈ (buildListOfSymbolsChildren cs st).symbols ↔
        m ∈ st.symbols ∨
          (m ∈ ASTNode.reachList cs ∧ m ∉ st.visited ∧ m.GetKind = Kind.SYMBOL)) ∧
      (st.symbols.Nodup → (buildListOfSymbolsChildren cs st).symbols.Nodup) := by
  induction cs with
  | nil =>
    intro st s _ _
    simp [buildListOfSymbolsChildren, ASTNode.reachList]
  | cons c cs ihcs =>
    intro st s hsz hinv
    rw [buildListOfSymbolsChildren]
    obtain ⟨h1, h2, h3⟩ := ih c (List.mem_cons_self _ _) st
      (VisitedClosed_mono hinv (hsz c (List.mem_cons_self _ _)))
    have hinv1 : VisitedClosed (buildListOfSymbols c st).visited s := by
      intro m hm
      rcases (h1 m).1 hm with h | h
      · rcases hinv m h with h4 | h4
        · exact Or.inl h4
        · exact Or.inr (fun x hx => (h1 x).2 (Or.inl (h4 x hx)))
      · exact Or.inr (fun x hx => (h1 x).2 (Or.inr (reach_trans c m h x hx)))
    obtain ⟨h4, h5, h6⟩ := ihcs (fun d hd => ih d (List.mem_cons_of_mem _ hd))
      (buildListOfSymbols c st) s (fun d hd => hsz d (List.mem_cons_of_mem _ hd)) hinv1
    refine ⟨?_, ?_, fun hnd => h6 (h3 hnd)⟩
    · intro m
      rw [h4, h1, ASTNode.reachList, List.mem_append]
      tauto
    · intro m
      rw [h5, h2, h1, ASTNode.reachList, List.mem_append]
      tauto

theorem buildListOfSymbols_step (n : ASTNode) : SymbolStep n := by
  induction n using node_induction with
  | _ n ih =>
    intro st hinv
    rw [buildListOfSymbols_eq]
    by_cases hn : n ∈ st.visited
    · rw [if_pos hn]
      have hr : ∀ x ∈ n.reach, x ∈ st.visited := by
        rcases hinv n hn with h | h
        · omega
        · exact h
      refine ⟨?_, ?_, fun h => h⟩
      · intro m
        exact ⟨Or.inl, fun h => h.elim id (hr m)⟩
      · intro m
        exact ⟨Or.inl, fun h => h.elim id (fun h1 => absurd (hr m h1.1) h1.2.1)⟩
    · rw [if_neg hn]
      have hinv1 : VisitedClosed (n :: st.visited) (sizeOf n - 1) := by
        intro m hm
        rcases List.mem_cons.1 hm with rfl | hm
        · left
          have := sizeOf_node_pos m
          omega
        · rcases hinv m hm with h | h
          · exact Or.inl (by omega)
          · exact Or.inr (fun x hx => List.mem_cons_of_mem _ (h x hx))
      obtain ⟨h4, h5, h6⟩ := buildListOfSymbolsChildren_spec n.GetChildren ih
        { visited := n :: st.visited,
          symbols := if n.GetKind = Kind.SYMBOL then st.symbols.insert n else st.symbols }
        (sizeOf n - 1) (fun c hc => by have := sizeOf_child_lt n c hc; omega) hinv1
      refine ⟨?_, ?_, ?_⟩
      · intro m
        rw [h4, reach_eq n, List.mem_cons, List.mem_cons]
        tauto
      · intro m
        rw [h5, reach_eq n, List.mem_cons, List.mem_cons]
        by_cases hk : n.GetKind = Kind.SYMBOL
        · simp only [hk, if_true, List.mem_insert_iff]
          constructor
          · rintro ((rfl | h) | ⟨h7, h8, h9⟩)
            · exact Or.inr ⟨Or.inl rfl, hn, hk⟩
            · exact Or.inl h
            · exact Or.inr ⟨Or.inr h7, fun h => h8 (Or.inr h), h9⟩
          · rintro (h | ⟨rfl | h7, h8, h9⟩)
            · exact Or.inl (Or.inr h)
            · exact Or.inl (Or.inl rfl)
            · by_cases hmn : m = n
              · exact Or.inl (Or.inl hmn)
              · exact Or.inr ⟨h7, fun h => h.elim hmn h8, h9⟩
        · simp only [hk, if_false]
          constructor
          · rintro (h | ⟨h7, h8, h9⟩)
            · exact Or.inl h
            · exact Or.inr ⟨Or.inr h7, fun h => h8 (Or.inr h), h9⟩
          · rintro (h | ⟨rfl | h7, h8, h9⟩)
            · exact Or.inl h
            · exact absurd h9 hk
            · by_cases hmn : m = n
              · rw [hmn] at h9
                exact absurd h9 hk
              · exact Or.inr ⟨h7, fun h => h.elim hmn h8, h9⟩
      · intro hnd
        apply h6
        by_cases hk : n.GetKind = Kind.SYMBOL
        · simp only [hk, if_true]
          exact hnd.insert
        · simp only [hk, if_false]
          exact hnd

/-- C10: called with `visited` and `symbols` both empty, `buildListOfSymbols` leaves in
`symbols` exactly the nodes reachable from `root` (`root` included) whose kind is `SYMBOL`,
each of them once. -/
theorem buildListOfSymbols_spec (root : ASTNode) :
    (∀ m, m ∈ (buildListOfSymbols root { visited := [], symbols := [] }).symbols ↔
      m ∈ root.reach ∧ m.GetKind = Kind.SYMBOL) ∧
    (buildListOfSymbols root { visited := [], symbols := [] }).symbols.Nodup := by
  obtain ⟨_, h2, h3⟩ := buildListOfSymbols_step root { visited := [], symbols := [] }
    (fun m hm => by cases hm)
  refine ⟨fun m => ?_, h3 List.nodup_nil⟩
  rw [h2]
  simp

/-! ## Flattening: the duplicate-preserving policy -/

theorem FlattenKindIntoChild_eq (k : Kind) (n : ASTNode) (flat : List ASTNode) :
    FlattenKindIntoChild k n flat =
      if k = n.GetKind then FlattenKindInto k n.GetChildren flat else flat ++ [n] := by
  obtain ⟨ck, t, w, i, m, u, cs⟩ := n
  rw [FlattenKindIntoChild]
  rfl

theorem FlattenKindInto_cons (k : Kind) (c : ASTNode) (cs flat : List ASTNode) :
    FlattenKindInto k (c :: cs) flat = FlattenKindInto k cs (FlattenKindIntoChild k c flat) := by
  rw [FlattenKindInto]

theorem FlattenKindInto_nil (k : Kind) (flat : List ASTNode) :
    FlattenKindInto k [] flat = flat := by
  rw [FlattenKindInto]

theorem FlattenKindInto_acc_of (k : Kind) (cs : List ASTNode)
    (ih : ∀ c ∈ cs, ∀ flat, FlattenKindIntoChild k c flat = flat ++ FlattenKindIntoChild k c []) :
    ∀ flat, FlattenKindInto k cs flat = flat ++ FlattenKindInto k cs [] := by
  induction cs with
  | nil =>
    intro flat
    simp [FlattenKindInto_nil]
  | cons c cs ihcs =>
    intro flat
    have h1 := ihcs (fun d hd => ih d (List.mem_cons_of_mem _ hd))
    rw [FlattenKindInto_cons, FlattenKindInto_cons, h1 (FlattenKindIntoChild k c flat),
      h1 (FlattenKindIntoChild k c []), ih c (List.mem_cons_self _ _) flat, List.append_assoc]

theorem FlattenKindIntoChild_acc (k : Kind) (n : ASTNode) :
    ∀ flat, FlattenKindIntoChild k n flat = flat ++ FlattenKindIntoChild k n [] := by
  induction n using node_induction with
  | _ n ih =>
    intro flat
    rw [FlattenKindIntoChild_eq, FlattenKindIntoChild_eq]
    by_cases hk : k = n.GetKind
    · rw [if_pos hk, if_pos hk]
      exact FlattenKindInto_acc_of k n.GetChildren ih flat
    · rw [if_neg hk, if_neg hk]
      rfl

/-- The three-argument `FlattenKind` only appends to its output vector. -/
theorem FlattenKindInto_acc (k : Kind) (cs flat : List ASTNode) :
    FlattenKindInto k cs flat = flat ++ FlattenKindInto k cs [] :=
  FlattenKindInto_acc_of k cs (fun c _ => FlattenKindIntoChild_acc k c) flat

theorem FlattenKindInto_cons_nil (k : Kind) (c : ASTNode) (cs : List ASTNode) :
    FlattenKindInto k (c :: cs) [] = FlattenKindIntoChild k c [] ++ FlattenKindInto k cs [] := by
  rw [FlattenKindInto_cons, FlattenKindInto_acc]

theorem FlattenKindInto_append (k : Kind) (cs ds : List ASTNode) :
    FlattenKindInto k (cs ++ ds) [] = FlattenKindInto k cs [] ++ FlattenKindInto k ds [] := by
  induction cs with
  | nil => simp [FlattenKindInto_nil]
  | cons c cs ih =>
    rw [List.cons_append, FlattenKindInto_cons_nil, FlattenKindInto_cons_nil, ih,
      List.append_assoc]

theorem FlattenKindInto_singleton (k : Kind) (n : ASTNode) :
    FlattenKindInto k [n] [] =
      if n.GetKind = k then FlattenKindInto k n.GetChildren [] else [n] := by
  rw [FlattenKindInto_cons, FlattenKindInto_nil, FlattenKindIntoChild_eq]
  by_cases hk : k = n.GetKind
  · rw [if_pos hk, if_pos hk.symm]
  · rw [if_neg hk, if_neg (fun h => hk h.symm)]
    rfl

theorem FlattenKindInto_kind_of (k : Kind) (cs : List ASTNode)
    (ih : ∀ c ∈ cs, ∀ x ∈ FlattenKindIntoChild k c [], x.GetKind ≠ k) :
    ∀ x ∈ FlattenKindInto k cs [], x.GetKind ≠ k := by
  induction cs with
  | nil =>
    intro x hx
    rw [FlattenKindInto_nil] at hx
    cases hx
  | cons c cs ihcs =>
    intro x hx
    rw [FlattenKindInto_cons_nil, List.mem_append] at hx
    rcases hx with hx | hx
    · exact ih c (List.mem_cons_self _ _) x hx
    · exact ihcs (fun d hd => ih d (List.mem_cons_of_mem _ hd)) x hx

theorem FlattenKindIntoChild_kind (k : Kind) (n : ASTNode) :
    ∀ x ∈ FlattenKindIntoChild k n [], x.GetKind ≠ k := by
  induction n using node_induction with
  | _ n ih =>
    intro x hx
    rw [FlattenKindIntoChild_eq] at hx
    by_cases hk : k = n.GetKind
    · rw [if_pos hk] at hx
      exact FlattenKindInto_kind_of k n.GetChildren ih x hx
    · rw [if_neg hk] at hx
      simp only [List.nil_append, List.mem_singleton] at hx
      rw [hx]
      exact fun h => hk h.symm

/-- The duplicate-preserving flattening leaves no operand of kind `k`. -/
theorem FlattenKindInto_kind (k : Kind) (cs : List ASTNode) :
    ∀ x ∈ FlattenKindInto k cs [], x.GetKind ≠ k :=
  FlattenKindInto_kind_of k cs (fun c _ => FlattenKindIntoChild_kind k c)

/-- On operands none of which has kind `k` the duplicate-preserving flattening changes nothing. -/
theorem FlattenKindInto_of_no_kind (k : Kind) (cs : List ASTNode)
    (h : ∀ x ∈ cs, x.GetKind ≠ k) : FlattenKindInto k cs [] = cs := by
  induction cs with
  | nil => rw [FlattenKindInto_nil]
  | cons c cs ih =>
    rw [FlattenKindInto_cons_nil, ih (fun x hx => h x (List.mem_cons_of_mem _ hx)),
      FlattenKindIntoChild_eq, if_neg (fun hk => h c (List.mem_cons_self _ _) hk.symm)]
    rfl

/-! ## Flattening: the duplicate-free policy -/

theorem FlattenKindNoDuplicatesChild_eq (k : Kind) (n : ASTNode) (st : FlattenState) :
    FlattenKindNoDuplicatesChild k n st =
      if k = n.GetKind then
        if n ∈ st.alreadyFlattened then st
        else FlattenKindNoDuplicates k n.GetChildren
          { st with alreadyFlattened := n :: st.alreadyFlattened }
      else { st with flat_children := st.flat_children ++ [n] } := by
  obtain ⟨ck, t, w, i, m, u, cs⟩ := n
  rw [FlattenKindNoDuplicatesChild]
  rfl

theorem FlattenKindNoDuplicates_cons (k : Kind) (c : ASTNode) (cs : List ASTNode)
    (st : FlattenState) :
    FlattenKindNoDuplicates k (c :: cs) st =
      FlattenKindNoDuplicates k cs (FlattenKindNoDuplicatesChild k c st) := by
  rw [FlattenKindNoDuplicates]

theorem FlattenKindNoDuplicates_nil (k : Kind) (st : FlattenState) :
    FlattenKindNoDuplicates k [] st = st := by
  rw [FlattenKindNoDuplicates]

theorem FlattenKindNoDuplicates_append (k : Kind) (cs ds : List ASTNode) :
    ∀ st, FlattenKindNoDuplicates k (cs ++ ds) st =
      FlattenKindNoDuplicates k ds (FlattenKindNoDuplicates k cs st) := by
  induction cs with
  | nil =>
    intro st
    rw [List.nil_append, FlattenKindNoDuplicates_nil]
  | cons c cs ih =>
    intro st
    rw [List.cons_append, FlattenKindNoDuplicates_cons, FlattenKindNoDuplicates_cons, ih]

theorem operandsOnce_perm (k : Kind) (c : ASTNode) (cs e1 e2 : List ASTNode) :
    (operandsOnce k [c] e1 ++ operandsOnce k cs e2).Perm (operandsOnce k (c :: cs) (e2 ++ e1)) := by
  unfold operandsOnce
  rw [← List.filter_append]
  apply List.Perm.filter
  simp only [List.flatMap_append, List.singleton_append, List.cons_append, List.perm_cons]
  have h1 : (e1.flatMap ASTNode.GetChildren ++ (cs ++ e2.flatMap ASTNode.GetChildren)).Perm
      ((cs ++ e2.flatMap ASTNode.GetChildren) ++ e1.flatMap ASTNode.GetChildren) :=
    List.perm_append_comm
  simpa [List.append_assoc] using h1

theorem FlattenEffect_nil (k : Kind) (st : FlattenState) : FlattenEffect k [] st st := by
  refine ⟨[], [], by simp, by simp, ?_, by simp, List.nodup_nil, by simp, ?_⟩
  · exact List.nil_sublist _
  · simp [operandsOnce]

theorem FlattenEffect_cons (k : Kind) (c : ASTNode) (cs : List ASTNode)
    (st st1 st2 : FlattenState) (h1 : FlattenEffect k [c] st st1)
    (h2 : FlattenEffect k cs st1 st2) : FlattenEffect k (c :: cs) st st2 := by
  obtain ⟨new1, exp1, hf1, ha1, hs1, hk1, hn1, hd1, hp1⟩ := h1
  obtain ⟨new2, exp2, hf2, ha2, hs2, hk2, hn2, hd2, hp2⟩ := h2
  refine ⟨new1 ++ new2, exp2 ++ exp1, ?_, ?_, ?_, ?_, ?_, ?_, ?_⟩
  · rw [hf2, hf1, List.append_assoc]
  · rw [ha2, ha1, List.append_assoc]
  · have h := FlattenKindInto_append k [c] cs
    rw [List.singleton_append] at h
    rw [h]
    exact hs1.append hs2
  · intro e he
    rcases List.mem_append.1 he with he | he
    · exact hk2 e he
    · exact hk1 e he
  · rw [List.nodup_append]
    refine ⟨hn2, hn1, ?_⟩
    intro e he2 he1
    exact hd2 e he2 (by rw [ha1]; exact List.mem_append_left _ he1)
  · intro e he
    rcases List.mem_append.1 he with he | he
    · exact fun h => hd2 e he (by rw [ha1]; exact List.mem_append_right _ h)
    · exact hd1 e he
  · exact (hp1.append hp2).trans (operandsOnce_perm k c cs exp1 exp2)

theorem FlattenKindNoDuplicates_effect_of (k : Kind) (cs : List ASTNode)
    (ih : ∀ c ∈ cs, ∀ st, FlattenEffect k [c] st (FlattenKindNoDuplicatesChild k c st)) :
    ∀ st, FlattenEffect k cs st (FlattenKindNoDuplicates k cs st) := by
  induction cs with
  | nil =>
    intro st
    rw [FlattenKindNoDuplicates_nil]
    exact FlattenEffect_nil k st
  | cons c cs ihcs =>
    intro st
    rw [FlattenKindNoDuplicates_cons]
    exact FlattenEffect_cons k c cs st _ _ (ih c (List.mem_cons_self _ _) st)
      (ihcs (fun d hd => ih d (List.mem_cons_of_mem _ hd)) _)

theorem FlattenKindNoDuplicatesChild_effect (k : Kind) (n : ASTNode) :
    ∀ st, FlattenEffect k [n] st (FlattenKindNoDuplicatesChild k n st) := by
  induction n using node_induction with
  | _ n ih =>
    intro st
    rw [FlattenKindNoDuplicatesChild_eq]
    by_cases hk : k = n.GetKind
    · rw [if_pos hk]
      by_cases hn : n ∈ st.alreadyFlattened
      · rw [if_pos hn]
        refine ⟨[], [], by simp, by simp, List.nil_sublist _, by simp, List.nodup_nil,
          by simp, ?_⟩
        simp [operandsOnce, hk]
      · rw [if_neg hn]
        obtain ⟨new, exp, hf, ha, hs, hkk, hnd, hd, hp⟩ :=
          FlattenKindNoDuplicates_effect_of k n.GetChildren ih
            { st with alreadyFlattened := n :: st.alreadyFlattened }
        refine ⟨new, exp ++ [n], hf, ?_, ?_, ?_, ?_, ?_, ?_⟩
        · rw [ha]
          simp
        · rw [FlattenKindInto_singleton, if_pos hk.symm]
          exact hs
        · intro e he
          rcases List.mem_append.1 he with he | he
          · exact hkk e he
          · rw [List.mem_singleton.1 he]
            exact hk.symm
        · rw [List.nodup_append]
          refine ⟨hnd, List.nodup_singleton _, ?_⟩
          intro e he1 he2
          rw [List.mem_singleton.1 he2] at he1
          exact hd n he1 (List.mem_cons_self _ _)
        · intro e he
          rcases List.mem_append.1 he with he | he
          · exact fun h => hd e he (List.mem_cons_of_mem _ h)
          · rw [List.mem_singleton.1 he]
            exact hn
        · refine hp.trans ?_
          unfold operandsOnce
          have h0 : List.filter (fun x => decide (x.GetKind ≠ k))
              ([n] ++ (exp ++ [n]).flatMap ASTNode.GetChildren) =
              List.filter (fun x => decide (x.GetKind ≠ k))
                (exp.flatMap ASTNode.GetChildren ++ n.GetChildren) := by
            simp [List.flatMap_append, hk.symm, List.filter_cons]
          rw [h0]
          exact List.Perm.filter _ List.perm_append_comm
    · rw [if_neg hk]
      refine ⟨[n], [], rfl, by simp, ?_, by simp, List.nodup_nil, by simp, ?_⟩
      · rw [FlattenKindInto_singleton, if_neg (fun h => hk h.symm)]
      · have : ¬ n.GetKind = k := fun h => hk h.symm
        simp [operandsOnce, this]

theorem FlattenKindNoDuplicates_effect (k : Kind) (cs : List ASTNode) (st : FlattenState) :
    FlattenEffect k cs st (FlattenKindNoDuplicates k cs st) :=
  FlattenKindNoDuplicates_effect_of k cs (fun c _ => FlattenKindNoDuplicatesChild_effect k c) st

theorem FlattenKindNoDuplicates_set_mono (k : Kind) (cs : List ASTNode) (st : FlattenState) :
    ∀ m ∈ st.alreadyFlattened, m ∈ (FlattenKindNoDuplicates k cs st).alreadyFlattened := by
  obtain ⟨_, exp, _, ha, _⟩ := FlattenKindNoDuplicates_effect k cs st
  intro m hm
  rw [ha]
  exact List.mem_append_right _ hm

theorem FlattenKindNoDuplicates_flat_mono (k : Kind) (cs : List ASTNode) (st : FlattenState) :
    ∀ x ∈ st.flat_children, x ∈ (FlattenKindNoDuplicates k cs st).flat_children := by
  obtain ⟨new, _, hf, _⟩ := FlattenKindNoDuplicates_effect k cs st
  intro x hx
  rw [hf]
  exact List.mem_append_left _ hx

theorem FlattenKindNoDuplicatesChild_flat_mono (k : Kind) (c : ASTNode) (st : FlattenState) :
    ∀ x ∈ st.flat_children, x ∈ (FlattenKindNoDuplicatesChild k c st).flat_children := by
  obtain ⟨new, _, hf, _⟩ := FlattenKindNoDuplicatesChild_effect k c st
  intro x hx
  rw [hf]
  exact List.mem_append_left _ hx

/-- A child of kind `k` is in the set once the loop body has run on it. -/
theorem FlattenKindNoDuplicatesChild_mem (k : Kind) (n : ASTNode) (hk : n.GetKind = k)
    (st : FlattenState) : n ∈ (FlattenKindNoDuplicatesChild k n st).alreadyFlattened := by
  rw [FlattenKindNoDuplicatesChild_eq, if_pos hk.symm]
  by_cases hn : n ∈ st.alreadyFlattened
  · rw [if_pos hn]
    exact hn
  · rw [if_neg hn]
    exact FlattenKindNoDuplicates_set_mono k _ _ n (List.mem_cons_self _ _)

theorem FlattenKindNoDuplicates_mem (k : Kind) (n : ASTNode) (hk : n.GetKind = k)
    (cs : List ASTNode) (hn : n ∈ cs) :
    ∀ st, n ∈ (FlattenKindNoDuplicates k cs st).alreadyFlattened := by
  induction cs with
  | nil => cases hn
  | cons c cs ih =>
    intro st
    rw [FlattenKindNoDuplicates_cons]
    rcases List.mem_cons.1 hn with h | h
    · subst h
      exact FlattenKindNoDuplicates_set_mono k cs _ n (FlattenKindNoDuplicatesChild_mem k n hk st)
    · exact ih h _

/-- On operands none of which has kind `k` the duplicate-free flattening appends them all. -/
theorem FlattenKindNoDuplicates_of_no_kind (k : Kind) (cs : List ASTNode)
    (h : ∀ x ∈ cs, x.GetKind ≠ k) :
    ∀ st, FlattenKindNoDuplicates k cs st =
      { st with flat_children := st.flat_children ++ cs } := by
  induction cs with
  | nil =>
    intro st
    rw [FlattenKindNoDuplicates_nil, List.append_nil]
  | cons c cs ih =>
    intro st
    rw [FlattenKindNoDuplicates_cons, FlattenKindNoDuplicatesChild_eq,
      if_neg (fun hk => h c (List.mem_cons_self _ _) hk.symm),
      ih (fun x hx => h x (List.mem_cons_of_mem _ hx))]
    simp

theorem FlattenKind_of_idempotent (k : Kind) (hk : k ∈ idempotentKinds) (cs : List ASTNode) :
    FlattenKind k cs =
      (FlattenKindNoDuplicates k cs
        { flat_children := [], alreadyFlattened := [] }).flat_children := by
  have h : k = Kind.OR ∨ k = Kind.BVOR ∨ k = Kind.BVAND ∨ k = Kind.AND := by
    simpa [idempotentKinds] using hk
  rw [FlattenKind, if_pos h]

theorem FlattenKind_of_not_idempotent (k : Kind) (hk : k ∉ idempotentKinds)
    (cs : List ASTNode) : FlattenKind k cs = FlattenKindInto k cs [] := by
  have h : ¬ (k = Kind.OR ∨ k = Kind.BVOR ∨ k = Kind.BVAND ∨ k = Kind.AND) := by
    simpa [idempotentKinds] using hk
  rw [FlattenKind, if_neg h]

/-- Under either policy the flat vector holds no operand of kind `k`. -/
theorem FlattenKind_kind (k : Kind) (cs : List ASTNode) :
    ∀ x ∈ FlattenKind k cs, x.GetKind ≠ k := by
  intro x hx
  by_cases hk : k ∈ idempotentKinds
  · rw [FlattenKind_of_idempotent k hk] at hx
    obtain ⟨new, _, hf, _, hs, _⟩ := FlattenKindNoDuplicates_effect k cs
      { flat_children := [], alreadyFlattened := [] }
    rw [hf, List.nil_append] at hx
    exact FlattenKindInto_kind k cs x (hs.subset hx)
  · rw [FlattenKind_of_not_idempotent k hk] at hx
    exact FlattenKindInto_kind k cs x hx

/-- Under either policy operands none of which has kind `k` are left as they are. -/
theorem FlattenKind_of_no_kind (k : Kind) (cs : List ASTNode)
    (h : ∀ x ∈ cs, x.GetKind ≠ k) : FlattenKind k cs = cs := by
  by_cases hk : k ∈ idempotentKinds
  · rw [FlattenKind_of_idempotent k hk, FlattenKindNoDuplicates_of_no_kind k cs h]
    rfl
  · rw [FlattenKind_of_not_idempotent k hk]
    exact FlattenKindInto_of_no_kind k cs h

/-- C11: under the duplicate-free policy a sub-node of kind `k` that was already expanded is
skipped entirely: if `n` is of kind `k` and occurs in `C`, then flattening `C ++ [n]` gives
what flattening `C` gives. -/
theorem FlattenKind_skips_expanded (k : Kind) (hk : k ∈ idempotentKinds) (C : List ASTNode)
    (n : ASTNode) (hkn : n.GetKind = k) (hn : n ∈ C) :
    FlattenKind k (C ++ [n]) = FlattenKind k C := by
  rw [FlattenKind_of_idempotent k hk, FlattenKind_of_idempotent k hk,
    FlattenKindNoDuplicates_append, FlattenKindNoDuplicates_cons, FlattenKindNoDuplicates_nil,
    FlattenKindNoDuplicatesChild_eq, if_pos hkn.symm,
    if_pos (FlattenKindNoDuplicates_mem k n hkn C hn _)]

/-- Witness of `FlattenKind_skips_expanded` at the children `[a, OR(b, c)]` of an `OR` and the
node `OR(b, c)`: flattening `[a, OR(b, c), OR(b, c)]` yields `[a, b, c]`. -/
theorem FlattenKind_skips_expanded_witness :
    Kind.OR ∈ idempotentKinds ∧ orNode.GetKind = Kind.OR ∧ orNode ∈ [boolSymbol 1, orNode] ∧
    FlattenKind Kind.OR ([boolSymbol 1, orNode] ++ [orNode]) =
      FlattenKind Kind.OR [boolSymbol 1, orNode] ∧
    FlattenKind Kind.OR [boolSymbol 1, orNode, orNode] =
      [boolSymbol 1, boolSymbol 2, boolSymbol 3] :=
  ⟨by decide, rfl, by decide,
    FlattenKind_skips_expanded Kind.OR (by decide) [boolSymbol 1, orNode] orNode rfl
      (by decide), by decide⟩

/-- C12, as stated, fails: flattening the children `[a, a]` of an `OR` yields `[a, a]`, in
which the node `a` occurs twice. -/
theorem FlattenKind_OR_keeps_repeated_operand :
    FlattenKind Kind.OR [boolSymbol 1, boolSymbol 1] = [boolSymbol 1, boolSymbol 1] ∧
    ¬ (FlattenKind Kind.OR [boolSymbol 1, boolSymbol 1]).Nodup := by
  constructor
  · decide
  · decide

/-- C12, amended: for the kinds `OR`, `BVOR`, `BVAND`, `AND` the flattening expands every
sub-node of kind `k` at most once: the set of expanded nodes holds each node once, every one of
them is of kind `k`, and the flat vector is a rearrangement of the operands not of kind `k`
among `C` and among the children of the expanded nodes, each expanded node taken once. -/
theorem FlattenKind_expands_once (k : Kind) (hk : k ∈ idempotentKinds) (C : List ASTNode) :
    (FlattenKindNoDuplicates k C
      { flat_children := [], alreadyFlattened := [] }).alreadyFlattened.Nodup ∧
    (∀ e ∈ (FlattenKindNoDuplicates k C
      { flat_children := [], alreadyFlattened := [] }).alreadyFlattened, e.GetKind = k) ∧
    (FlattenKind k C).Perm (operandsOnce k C
      (FlattenKindNoDuplicates k C
        { flat_children := [], alreadyFlattened := [] }).alreadyFlattened) := by
  rw [FlattenKind_of_idempotent k hk]
  obtain ⟨new, exp, hf, ha, _, hkk, hnd, _, hp⟩ := FlattenKindNoDuplicates_effect k C
    { flat_children := [], alreadyFlattened := [] }
  rw [hf, ha]
  simp only [List.nil_append, List.append_nil]
  exact ⟨hnd, hkk, hp⟩

/-- Witness of `FlattenKind_expands_once` at the children `[a, OR(b, c), OR(b, c)]` of an
`OR`. -/
theorem FlattenKind_expands_once_witness :
    Kind.OR ∈ idempotentKinds ∧
    ((FlattenKindNoDuplicates Kind.OR [boolSymbol 1, orNode, orNode]
      { flat_children := [], alreadyFlattened := [] }).alreadyFlattened.Nodup ∧
    (∀ e ∈ (FlattenKindNoDuplicates Kind.OR [boolSymbol 1, orNode, orNode]
      { flat_children := [], alreadyFlattened := [] }).alreadyFlattened, e.GetKind = Kind.OR) ∧
    (FlattenKind Kind.OR [boolSymbol 1, orNode, orNode]).Perm
      (operandsOnce Kind.OR [boolSymbol 1, orNode, orNode]
        (FlattenKindNoDuplicates Kind.OR [boolSymbol 1, orNode, orNode]
          { flat_children := [], alreadyFlattened := [] }).alreadyFlattened)) :=
  ⟨by decide, FlattenKind_expands_once Kind.OR (by decide) [boolSymbol 1, orNode, orNode]⟩

/-- C13: under the duplicate-preserving policy flattening distributes over concatenation of
children lists, and a single node of kind `k` flattens to the flattening of its children, any
other single node to itself; multiplicity and order of the operands are kept. -/
theorem FlattenKind_preserves_multiplicity (k : Kind) (hk : k ∉ idempotentKinds) :
    (∀ C D : List ASTNode, FlattenKind k (C ++ D) = FlattenKind k C ++ FlattenKind k D) ∧
    (∀ n : ASTNode, FlattenKind k [n] =
      if n.GetKind = k then FlattenKind k n.GetChildren else [n]) := by
  constructor
  · intro C D
    rw [FlattenKind_of_not_idempotent k hk, FlattenKind_of_not_idempotent k hk,
      FlattenKind_of_not_idempotent k hk, FlattenKindInto_append]
  · intro n
    rw [FlattenKind_of_not_idempotent k hk, FlattenKind_of_not_idempotent k hk,
      FlattenKindInto_singleton]

/-- Witness of `FlattenKind_preserves_multiplicity` at `BVPLUS`: the children
`[a, BVPLUS(b, c), BVPLUS(b, c)]` flatten to `[a, b, c, b, c]`. -/
theorem FlattenKind_preserves_multiplicity_witness :
    Kind.BVPLUS ∉ idempotentKinds ∧
    ((∀ C D : List ASTNode,
      FlattenKind Kind.BVPLUS (C ++ D) = FlattenKind Kind.BVPLUS C ++ FlattenKind Kind.BVPLUS D) ∧
    (∀ n : ASTNode, FlattenKind Kind.BVPLUS [n] =
      if n.GetKind = Kind.BVPLUS then FlattenKind Kind.BVPLUS n.GetChildren else [n])) ∧
    FlattenKind Kind.BVPLUS [bvSymbol 8 1, innerPlus, innerPlus] =
      [bvSymbol 8 1, bvSymbol 8 2, bvSymbol 8 3, bvSymbol 8 2, bvSymbol 8 3] :=
  ⟨by decide, FlattenKind_preserves_multiplicity Kind.BVPLUS (by decide), by decide⟩

/-- C14: under either policy, no element of `FlattenKind(k, C)` has kind `k`. -/
theorem FlattenKind_no_kind (k : Kind) (C : List ASTNode) :
    ∀ x ∈ FlattenKind k C, x.GetKind ≠ k := by
  intro x hx
  by_cases hk : k ∈ idempotentKinds
  · rw [FlattenKind_of_idempotent k hk] at hx
    obtain ⟨new, _, hf, _, hs, _⟩ := FlattenKindNoDuplicates_effect k C
      { flat_children := [], alreadyFlattened := [] }
    rw [hf, List.nil_append] at hx
    exact FlattenKindInto_kind k C x (hs.subset hx)
  · rw [FlattenKind_of_not_idempotent k hk] at hx
    exact FlattenKindInto_kind k C x hx

/-- Witness of `FlattenKind_no_kind` at the children `[a, OR(b, c), OR(b, c)]` of an `OR` and
the operand `b` of the flat vector. -/
theorem FlattenKind_no_kind_witness :
    boolSymbol 2 ∈ FlattenKind Kind.OR [boolSymbol 1, orNode, orNode] ∧
    (boolSymbol 2).GetKind ≠ Kind.OR :=
  ⟨by decide,
    FlattenKind_no_kind Kind.OR [boolSymbol 1, orNode, orNode] (boolSymbol 2) (by decide)⟩

/-- C15: flattening is idempotent, `FlattenKind(k, FlattenKind(k, C)) = FlattenKind(k, C)`, for
the kinds `OR`, `AND`, `BVOR`, `BVAND` as for every other kind. -/
theorem FlattenKind_idempotent (k : Kind) (C : List ASTNode) :
    FlattenKind k (FlattenKind k C) = FlattenKind k C := by
  have hno : ∀ x ∈ FlattenKind k C, x.GetKind ≠ k := FlattenKind_kind k C
  by_cases hk : k ∈ idempotentKinds
  · rw [FlattenKind_of_idempotent k hk (FlattenKind k C),
      FlattenKindNoDuplicates_of_no_kind k (FlattenKind k C) hno]
    rfl
  · rw [FlattenKind_of_not_idempotent k hk (FlattenKind k C)]
    exact FlattenKindInto_of_no_kind k (FlattenKind k C) hno

/-! ## The two flattening policies compared -/

theorem FlatClosed_mono {k : Kind} {st : FlattenState} {s s1 : Nat} (h : FlatClosed k st s)
    (hs : s1 ≤ s) : FlatClosed k st s1 := by
  intro m hm
  rcases h m hm with h1 | h1
  · exact Or.inl (by omega)
  · exact Or.inr h1

theorem FlattenKindNoDuplicates_covers_of (k : Kind) (cs : List ASTNode)
    (ih : ∀ c ∈ cs, ∀ st, FlatClosed k st (sizeOf c) →
      FlattenCovers k [c] st (FlattenKindNoDuplicatesChild k c st)) :
    ∀ (st : FlattenState) (s : Nat), (∀ c ∈ cs, sizeOf c ≤ s) → FlatClosed k st s →
      FlattenCovers k cs st (FlattenKindNoDuplicates k cs st) := by
  induction cs with
  | nil =>
    intro st s _ _
    rw [FlattenKindNoDuplicates_nil]
    refine ⟨?_, fun m hm => Or.inl hm⟩
    intro x hx
    rw [FlattenKindInto_nil] at hx
    cases hx
  | cons c cs ihcs =>
    intro st s hsz hcl
    rw [FlattenKindNoDuplicates_cons]
    obtain ⟨h1, h2⟩ := ih c (List.mem_cons_self _ _) st
      (FlatClosed_mono hcl (hsz c (List.mem_cons_self _ _)))
    have hcl1 : FlatClosed k (FlattenKindNoDuplicatesChild k c st) s := by
      intro m hm
      rcases h2 m hm with h | h
      · rcases hcl m h with h3 | h3
        · exact Or.inl h3
        · exact Or.inr (fun x hx => FlattenKindNoDuplicatesChild_flat_mono k c st x (h3 x hx))
      · exact Or.inr h
    obtain ⟨h4, h5⟩ := ihcs (fun d hd => ih d (List.mem_cons_of_mem _ hd))
      (FlattenKindNoDuplicatesChild k c st) s
      (fun d hd => hsz d (List.mem_cons_of_mem _ hd)) hcl1
    refine ⟨?_, ?_⟩
    · intro x hx
      rw [FlattenKindInto_cons_nil, List.mem_append] at hx
      rcases hx with hx | hx
      · apply FlattenKindNoDuplicates_flat_mono
        apply h1
        rw [FlattenKindInto_cons, FlattenKindInto_nil]
        exact hx
      · exact h4 x hx
    · intro m hm
      rcases h5 m hm with h | h
      · rcases h2 m h with h6 | h6
        · exact Or.inl h6
        · exact Or.inr (fun x hx => FlattenKindNoDuplicates_flat_mono k cs _ x (h6 x hx))
      · exact Or.inr h

theorem FlattenKindNoDuplicatesChild_covers (k : Kind) (n : ASTNode) :
    ∀ st, FlatClosed k st (sizeOf n) →
      FlattenCovers k [n] st (FlattenKindNoDuplicatesChild k n st) := by
  induction n using node_induction with
  | _ n ih =>
    intro st hcl
    rw [FlattenKindNoDuplicatesChild_eq]
    by_cases hk : k = n.GetKind
    · rw [if_pos hk]
      by_cases hn : n ∈ st.alreadyFlattened
      · rw [if_pos hn]
        refine ⟨?_, fun m hm => Or.inl hm⟩
        intro x hx
        rw [FlattenKindInto_singleton, if_pos hk.symm] at hx
        rcases hcl n hn with h | h
        · omega
        · exact h x hx
      · rw [if_neg hn]
        have hcl0 : FlatClosed k { st with alreadyFlattened := n :: st.alreadyFlattened }
            (sizeOf n - 1) := by
          intro m hm
          rcases List.mem_cons.1 hm with h | h
          · subst h
            left
            have := sizeOf_node_pos m
            omega
          · rcases hcl m h with h3 | h3
            · exact Or.inl (by omega)
            · exact Or.inr h3
        obtain ⟨h4, h5⟩ := FlattenKindNoDuplicates_covers_of k n.GetChildren ih
          { st with alreadyFlattened := n :: st.alreadyFlattened } (sizeOf n - 1)
          (fun c hc => by have := sizeOf_child_lt n c hc; omega) hcl0
        refine ⟨?_, ?_⟩
        · intro x hx
          rw [FlattenKindInto_singleton, if_pos hk.symm] at hx
          exact h4 x hx
        · intro m hm
          rcases h5 m hm with h | h
          · rcases List.mem_cons.1 h with h6 | h6
            · subst h6
              exact Or.inr h4
            · exact Or.inl h6
          · exact Or.inr h
    · rw [if_neg hk]
      refine ⟨?_, fun m hm => Or.inl hm⟩
      intro x hx
      rw [FlattenKindInto_singleton, if_neg (fun h => hk h.symm)] at hx
      exact List.mem_append_right _ hx

/-- C20: started with an empty output and an empty set, the duplicate-free flattening yields
a sublist (same order) of what the duplicate-preserving flattening yields, with exactly the
same elements: skipping the nodes already expanded loses no operand and reorders none. -/
theorem FlattenKindNoDuplicates_refines (k : Kind) (C : List ASTNode) :
    ((FlattenKindNoDuplicates k C
      { flat_children := [], alreadyFlattened := [] }).flat_children).Sublist
        (FlattenKindInto k C []) ∧
    ∀ x, x ∈ (FlattenKindNoDuplicates k C
      { flat_children := [], alreadyFlattened := [] }).flat_children ↔
        x ∈ FlattenKindInto k C [] := by
  obtain ⟨new, _, hf, _, hs, _⟩ := FlattenKindNoDuplicates_effect k C
    { flat_children := [], alreadyFlattened := [] }
  rw [List.nil_append] at hf
  obtain ⟨h1, _⟩ := FlattenKindNoDuplicates_covers_of k C
    (fun c _ => FlattenKindNoDuplicatesChild_covers k c)
    { flat_children := [], alreadyFlattened := [] } (sizeOf C)
    (fun c hc => Nat.le_of_lt (List.sizeOf_lt_of_mem hc)) (fun m hm => by cases hm)
  rw [hf] at h1 ⊢
  exact ⟨hs, fun x => ⟨fun hx => hs.subset hx, h1 x⟩⟩

/-! ## The arithmetic order -/

theorem arithless_eq (n1 n2 : ASTNode) :
    arithless n1 n2 = true ↔ n1 ≠ n2 ∧ ArithBefore n1 n2 := by
  unfold arithless ArithBefore kindRank
  simp only [@eq_comm _ Kind.BVCONST, @eq_comm _ Kind.SYMBOL, ne_eq]
  by_cases he : n1 = n2
  · simp [he]
  · by_cases h1 : n1.GetKind = Kind.BVCONST <;> by_cases h2 : n2.GetKind = Kind.BVCONST <;>
      by_cases h3 : n1.GetKind = Kind.SYMBOL <;> by_cases h4 : n2.GetKind = Kind.SYMBOL <;>
      simp_all

theorem ArithBefore_irrefl (a : ASTNode) : ¬ ArithBefore a a := by
  unfold ArithBefore
  omega

theorem ArithBefore_trans {a b c : ASTNode} (h1 : ArithBefore a b) (h2 : ArithBefore b c) :
    ArithBefore a c := by
  unfold ArithBefore at *
  omega

theorem ArithBefore_asymm {a b : ASTNode} (h1 : ArithBefore a b) : ¬ ArithBefore b a := by
  unfold ArithBefore at *
  omega

theorem ArithBefore_total {a b : ASTNode} (h : a.GetNodeNum ≠ b.GetNodeNum) :
    ArithBefore a b ∨ ArithBefore b a := by
  unfold ArithBefore
  omega

theorem arithless_false_iff (n1 n2 : ASTNode) :
    arithless n1 n2 = false ↔ n1 = n2 ∨ ¬ ArithBefore n1 n2 := by
  rw [← Bool.not_eq_true, arithless_eq]
  by_cases he : n1 = n2
  · simp [he]
  · simp [he]

/-- C16: `arithless` is irreflexive and transitive, and two nodes neither of which is less than
the other are the same node, if equal node numbers mean the same node. -/
theorem arithless_strict_total (n1 n2 n3 : ASTNode)
    (hid : n1.GetNodeNum = n2.GetNodeNum → n1 = n2) :
    arithless n1 n1 = false ∧
    (arithless n1 n2 = true → arithless n2 n3 = true → arithless n1 n3 = true) ∧
    (arithless n1 n2 = false → arithless n2 n1 = false → n1 = n2) := by
  refine ⟨?_, ?_, ?_⟩
  · rw [arithless_false_iff]
    exact Or.inl rfl
  · intro h12 h23
    rw [arithless_eq] at h12 h23 ⊢
    have h13 := ArithBefore_trans h12.2 h23.2
    refine ⟨?_, h13⟩
    intro he
    rw [he] at h13
    exact ArithBefore_irrefl n3 h13
  · intro h12 h21
    rw [arithless_false_iff] at h12 h21
    rcases h12 with h | h12
    · exact h
    rcases h21 with h | h21
    · exact h.symm
    by_cases hn : n1.GetNodeNum = n2.GetNodeNum
    · exact hid hn
    · rcases ArithBefore_total hn with h | h
      · exact absurd h h12
      · exact absurd h h21

/-- Witness of `arithless_strict_total` at a constant, a symbol and a sum. -/
theorem arithless_strict_total_witness :
    ((bvConst32 5 2).GetNodeNum = (bvSymbol 8 1).GetNodeNum → bvConst32 5 2 = bvSymbol 8 1) ∧
    (arithless (bvConst32 5 2) (bvConst32 5 2) = false ∧
    (arithless (bvConst32 5 2) (bvSymbol 8 1) = true → arithless (bvSymbol 8 1) plusNode = true →
      arithless (bvConst32 5 2) plusNode = true) ∧
    (arithless (bvConst32 5 2) (bvSymbol 8 1) = false →
      arithless (bvSymbol 8 1) (bvConst32 5 2) = false → bvConst32 5 2 = bvSymbol 8 1)) :=
  ⟨by decide, arithless_strict_total (bvConst32 5 2) (bvSymbol 8 1) plusNode (by decide)⟩

theorem orderedInsert_arith (a : ASTNode) (l : List ASTNode) (hl : l.Pairwise ArithBefore)
    (hd : ∀ b ∈ l, a.GetNodeNum ≠ b.GetNodeNum) :
    (l.orderedInsert (fun x y => arithless x y = true) a).Pairwise ArithBefore := by
  induction l with
  | nil => simp
  | cons b l ih =>
    rw [List.pairwise_cons] at hl
    rw [List.orderedInsert]
    by_cases hab : arithless a b = true
    · rw [if_pos hab]
      have h1 : ArithBefore a b := ((arithless_eq a b).1 hab).2
      refine List.pairwise_cons.2 ⟨?_, List.pairwise_cons.2 hl⟩
      intro x hx
      rcases List.mem_cons.1 hx with h | h
      · rw [h]
        exact h1
      · exact ArithBefore_trans h1 (hl.1 x h)
    · rw [if_neg hab]
      have hne := hd b (List.mem_cons_self _ _)
      have h1 : ArithBefore b a := by
        rcases ArithBefore_total hne with h | h
        · exact absurd ((arithless_eq a b).2 ⟨fun he => hne (by rw [he]), h⟩) hab
        · exact h
      refine List.pairwise_cons.2 ⟨?_, ih hl.2 (fun x hx => hd x (List.mem_cons_of_mem _ hx))⟩
      intro x hx
      rcases (List.mem_orderedInsert _).1 hx with h | h
      · rw [h]
        exact h1
      · exact hl.1 x h

theorem SortByArith_pairwise (v : List ASTNode) (hnd : (v.map ASTNode.GetNodeNum).Nodup) :
    (SortByArith v).Pairwise ArithBefore := by
  unfold SortByArith
  induction v with
  | nil => simp
  | cons a l ih =>
    rw [List.map_cons, List.nodup_cons] at hnd
    rw [List.insertionSort]
    apply orderedInsert_arith a _ (ih hnd.2)
    intro b hb he
    rw [List.mem_insertionSort] at hb
    exact hnd.1 (by rw [he]; exact List.mem_map_of_mem _ hb)

/-- C17: on a vector of nodes with distinct node numbers `SortByArith` yields a rearrangement
of the vector in which the groups come in the order constants, symbols, other kinds, and in
which the node numbers ascend strictly within each group; any rearrangement of the vector that
is sorted by `arithless` is this one. -/
theorem SortByArith_sorted (v : List ASTNode) (hnd : (v.map ASTNode.GetNodeNum).Nodup) :
    (SortByArith v).Perm v ∧
    (SortByArith v).Pairwise (fun a b => kindRank a.GetKind ≤ kindRank b.GetKind) ∧
    (SortByArith v).Pairwise
      (fun a b => kindRank a.GetKind = kindRank b.GetKind → a.GetNodeNum < b.GetNodeNum) ∧
    (∀ out : List ASTNode, out.Perm v → out.Pairwise (fun a b => arithless b a = false) →
      out = SortByArith v) := by
  have hp : (SortByArith v).Perm v := List.perm_insertionSort _ v
  have hs := SortByArith_pairwise v hnd
  refine ⟨hp, ?_, ?_, ?_⟩
  · refine hs.imp ?_
    intro a b h
    unfold ArithBefore at h
    omega
  · refine hs.imp ?_
    intro a b h
    unfold ArithBefore at h
    omega
  · intro out hout hsorted
    have hnd1 : (out.map ASTNode.GetNodeNum).Nodup := (hout.map _).nodup_iff.2 hnd
    have hne : out.Pairwise (fun a b => a.GetNodeNum ≠ b.GetNodeNum) :=
      (List.pairwise_map).1 hnd1
    have hs1 : out.Pairwise ArithBefore := by
      refine (hsorted.and hne).imp ?_
      intro a b h
      rcases (arithless_false_iff b a).1 h.1 with he | hb
      · exact absurd (by rw [he]) h.2
      · rcases ArithBefore_total h.2 with h1 | h1
        · exact h1
        · exact absurd h1 hb
    haveI : IsAntisymm ASTNode ArithBefore :=
      ⟨fun a b h1 h2 => absurd h2 (ArithBefore_asymm h1)⟩
    exact List.eq_of_perm_of_sorted (hout.trans hp.symm) hs1 hs

/-- Witness of `SortByArith_sorted` at `[sym x, const 5, op (x+5), sym y]`, which becomes
`[const 5, sym x, sym y, op (x+5)]`. -/
theorem SortByArith_sorted_witness :
    (arithVector.map ASTNode.GetNodeNum).Nodup ∧
    ((SortByArith arithVector).Perm arithVector ∧
    (SortByArith arithVector).Pairwise (fun a b => kindRank a.GetKind ≤ kindRank b.GetKind) ∧
    (SortByArith arithVector).Pairwise
      (fun a b => kindRank a.GetKind = kindRank b.GetKind → a.GetNodeNum < b.GetNodeNum) ∧
    (∀ out : List ASTNode, out.Perm arithVector →
      out.Pairwise (fun a b => arithless b a = false) → out = SortByArith arithVector)) ∧
    SortByArith arithVector = [bvConst32 5 2, bvSymbol 8 1, bvSymbol 8 4, plusNode] :=
  ⟨by decide, SortByArith_sorted arithVector (by decide), by decide⟩

/-! ## Child accesses of the type checker -/

theorem child_error (n : ASTNode) (i : Nat) (e : Failure) (h : n.child i = Except.error e) :
    n.Degree ≤ i := by
  unfold ASTNode.child at h
  cases hg : n.GetChildren.get? i with
  | some c => rw [hg] at h; cases h
  | none =>
    rw [List.get?_eq_none] at hg
    exact hg

theorem checkChildrenAreBV_not_outOfRange (cs : List ASTNode) (i : Nat) :
    checkChildrenAreBV cs ≠ Except.error (Failure.outOfRange i) := by
  rcases checkChildrenAreBV_fatal cs with h | ⟨msg, h⟩ <;> rw [h] <;> simp

theorem checkBitwiseArith_not_outOfRange (n : ASTNode) (i : Nat) :
    checkBitwiseArith n ≠ Except.error (Failure.outOfRange i) := by
  rcases checkBitwiseArith_fatal n with h | ⟨msg, h⟩ <;> rw [h] <;> simp

set_option maxHeartbeats 4000000 in
theorem BVTypeCheck_term_kind_outOfRange (n : ASTNode) (k : Kind) (i : Nat)
    (h : BVTypeCheck_term_kind n k = Except.error (Failure.outOfRange i)) :
    (k = Kind.BVSX ∨ k = Kind.BVZX) ∧ n.GetChildren = [] ∧ i = 0 := by
  obtain ⟨k0, t, w, i0, m, u, cs⟩ := n
  rcases cs with _ | ⟨a, _ | ⟨b, _ | ⟨c, _ | ⟨d, r⟩⟩⟩⟩ <;> cases k <;>
    first
    | exact absurd h (checkBitwiseArith_not_outOfRange _ i)
    | (simp only [BVTypeCheck_term_kind, GetChildren_mk, Degree_mk, GetValueWidth_mk,
        GetType_mk, FatalError, bind, Except.bind, ASTNode.child, pure, Except.pure,
        List.get?, List.length] at h
       first
       | exact absurd h (checkBitwiseArith_not_outOfRange _ i)
       | (simp at h; done)
       | (simp at h; exact absurd h (checkBitwiseArith_not_outOfRange _ i))
       | (simp at h; exact ⟨Or.inl rfl, rfl, h.symm⟩)
       | (simp at h; exact ⟨Or.inr rfl, rfl, h.symm⟩)
       | (exfalso
          try simp at h
          (repeat' split at h) <;>
            first
            | (cases h; done)
            | (cases h; exact checkChildrenAreBV_not_outOfRange _ _ (by assumption))))

set_option maxHeartbeats 4000000 in
theorem BVTypeCheck_nonterm_kind_not_outOfRange (n : ASTNode) (k : Kind) (i : Nat) :
    BVTypeCheck_nonterm_kind n k ≠ Except.error (Failure.outOfRange i) := by
  intro h
  obtain ⟨k0, t, w, i0, m, u, cs⟩ := n
  rcases cs with _ | ⟨a, _ | ⟨b, _ | ⟨c, _ | ⟨d, r⟩⟩⟩⟩ <;> cases k <;>
    simp only [BVTypeCheck_nonterm_kind, is_Form_kind, GetChildren_mk, Degree_mk,
      GetValueWidth_mk, GetType_mk, FatalError, bind, Except.bind, ASTNode.child, pure,
      Except.pure, List.get?, List.length] at h <;>
    first
    | (simp at h; done)
    | (try simp at h
       (repeat' split at h) <;>
         first
         | (cases h; done)
         | (cases h; exact checkChildrenAreBV_not_outOfRange _ _ (by assumption)))

/-- The only out-of-range child access of the type checker: a `BVSX` or `BVZX` node without
children, whose child 0 is read before the arity is checked. -/
theorem BVTypeCheck_outOfRange_iff (n : ASTNode) (i : Nat) :
    BVTypeCheck n = Except.error (Failure.outOfRange i) ↔
      (n.GetKind = Kind.BVSX ∨ n.GetKind = Kind.BVZX) ∧ n.GetChildren = [] ∧ i = 0 := by
  constructor
  · intro h
    unfold BVTypeCheck at h
    simp only at h
    split at h
    · exact BVTypeCheck_term_kind_outOfRange n _ i h
    · exact absurd h (BVTypeCheck_nonterm_kind_not_outOfRange n _ i)
  · rintro ⟨hk, hc, rfl⟩
    obtain ⟨k0, t, w, i0, m, u, cs⟩ := n
    rw [GetChildren_mk] at hc
    rw [GetKind_mk] at hk
    subst hc
    rcases hk with rfl | rfl <;> rfl

/-- C18, as stated, fails: on a `BVSX` node and on a `BVZX` node without children the type
checker reads child 0, which does not exist, before it checks the arity. -/
theorem BVTypeCheck_reads_missing_child :
    signExtendNoChildren.GetKind = Kind.BVSX ∧ signExtendNoChildren.Degree = 0 ∧
    BVTypeCheck signExtendNoChildren = Except.error (Failure.outOfRange 0) ∧
    zeroExtendNoChildren.GetKind = Kind.BVZX ∧ zeroExtendNoChildren.Degree = 0 ∧
    BVTypeCheck zeroExtendNoChildren = Except.error (Failure.outOfRange 0) :=
  ⟨rfl, rfl, rfl, rfl, rfl, rfl⟩

theorem BVTypeCheck_comparison_ok (n : ASTNode) (hk : n.GetKind ∈ comparisonKinds)
    (hok : BVTypeCheck n = Except.ok true) :
    ∃ c0 c1, n.GetChildren = [c0, c1] ∧
      (c0.GetType = types.BITVECTOR_TYPE ∨ c1.GetType = types.BITVECTOR_TYPE) ∧
      c0.GetValueWidth = c1.GetValueWidth ∧ c0.GetIndexWidth = c1.GetIndexWidth := by
  obtain ⟨k, t, w, i, m, u, cs⟩ := n
  simp only [GetKind_mk, comparisonKinds, List.mem_cons, List.mem_singleton, List.not_mem_nil,
    or_false] at hk
  rcases hk with rfl | rfl | rfl | rfl | rfl | rfl | rfl | rfl <;>
    rcases cs with _ | ⟨a, _ | ⟨b, _ | ⟨c, r⟩⟩⟩ <;>
    simp [BVTypeCheck, is_Term_kind, BVTypeCheck_nonterm_kind, is_Form_kind, FatalError, bind,
      Except.bind, ASTNode.child, pure, Except.pure, exists_pair_eq] at hok ⊢
  all_goals first
    | (split at hok <;> cases hok)
    | (refine ⟨a, b, ⟨rfl, rfl⟩, ?_⟩
       split_ifs at hok with h1 h2 h3 h4
       refine ⟨?_, h3, h4⟩
       by_cases ha : a.GetType = types.BITVECTOR_TYPE
       · exact Or.inl ha
       · right
         by_contra hb
         exact h2 ⟨fun h => ha h.symm, fun h => hb h.symm⟩)

/-- C19: if the children obey the width invariants of the data model, a comparison node
(`BVLT`, `BVLE`, `BVGT`, `BVGE`, `BVSLT`, `BVSLE`, `BVSGT`, `BVSGE`) that passes the type checker
has two children and both are bit-vectors, although the type test rejects only when neither
is. -/
theorem BVTypeCheck_comparison_both_bitvectors (n : ASTNode) (hk : n.GetKind ∈ comparisonKinds)
    (hinv : ∀ c ∈ n.GetChildren, WidthInvariant c) (hok : BVTypeCheck n = Except.ok true) :
    ∃ c0 c1, n.GetChildren = [c0, c1] ∧ c0.GetType = types.BITVECTOR_TYPE ∧
      c1.GetType = types.BITVECTOR_TYPE := by
  obtain ⟨c0, c1, hc, hbv, hw, hi⟩ := BVTypeCheck_comparison_ok n hk hok
  refine ⟨c0, c1, hc, ?_⟩
  obtain ⟨ha0, hb0, hv0, ht0⟩ := hinv c0 (by rw [hc]; simp)
  obtain ⟨ha1, hb1, hv1, ht1⟩ := hinv c1 (by rw [hc]; simp)
  rcases hbv with h0 | h1
  · refine ⟨h0, ?_⟩
    have hpos := hv0 h0
    have hna : ¬ c0.GetType = types.ARRAY_TYPE := by rw [h0]; decide
    have hi0 : ¬ 0 < c0.GetIndexWidth := fun h => hna (ha0.1 h)
    rcases ht1 with h | h | h
    · have := hb1 h
      omega
    · exact h
    · have := ha1.2 h
      omega
  · refine ⟨?_, h1⟩
    have hpos := hv1 h1
    have hna : ¬ c1.GetType = types.ARRAY_TYPE := by rw [h1]; decide
    have hi1 : ¬ 0 < c1.GetIndexWidth := fun h => hna (ha1.1 h)
    rcases ht0 with h | h | h
    · have := hb0 h
      omega
    · exact h
    · have := ha0.2 h
      omega

/-- Witness of `BVTypeCheck_comparison_both_bitvectors` at `BVLT(a:8, b:8)`. -/
theorem BVTypeCheck_comparison_both_bitvectors_witness :
    lessThanNode.GetKind ∈ comparisonKinds ∧
    (∀ c ∈ lessThanNode.GetChildren, WidthInvariant c) ∧
    BVTypeCheck lessThanNode = Except.ok true ∧
    ∃ c0 c1, lessThanNode.GetChildren = [c0, c1] ∧ c0.GetType = types.BITVECTOR_TYPE ∧
      c1.GetType = types.BITVECTOR_TYPE :=
  ⟨by decide, by simp [lessThanNode, bvSymbol, WidthInvariant], rfl,
    BVTypeCheck_comparison_both_bitvectors lessThanNode (by decide)
      (by simp [lessThanNode, bvSymbol, WidthInvariant]) rfl⟩

/-- Every failure of the recursive checker is a fatal error, unless a `BVSX` or `BVZX` node
without children is reachable. -/
theorem BVTypeCheckRecursive_fatal (n : ASTNode)
    (hsafe : ∀ m ∈ n.reach,
      ¬ ((m.GetKind = Kind.BVSX ∨ m.GetKind = Kind.BVZX) ∧ m.GetChildren = []))
    (hne : BVTypeCheckRecursive n ≠ Except.ok true) :
    ∃ msg, BVTypeCheckRecursive n = Except.error (Failure.fatal msg) := by
  rcases BVTypeCheckRecursive_cases n with ⟨h1, _⟩ | ⟨m, hm, e, h1, h2⟩
  · exact absurd h1 hne
  · cases e with
    | fatal msg => exact ⟨msg, h2⟩
    | outOfRange i =>
      have h3 := (BVTypeCheck_outOfRange_iff m i).1 h1
      exact absurd ⟨h3.1, h3.2.1⟩ (hsafe m hm)


end stp
